import Mathlib

set_option maxRecDepth 16384
set_option maxHeartbeats 40000000

/-
  Verification development for the hinotetsu sharded key-value engine.

  The definitions below are a shallow embedding of the engine sources:
  * hinotetsu3.c  — sharded KV store with incremental hash-table resize
                    (slab allocator, bump arena, two-table migration);
  * hinotetsu2.c  — the simpler single-table engine linked by the libuv
                    daemon (identical arena/slab code);
  * hinotetsu2d_uv.c — the libuv memcached-text-protocol front end.

  Modelling conventions:
  * machine integers are Nat; `% 2 ^ 32` / `% 2 ^ 64` appear exactly where
    the C relies on fixed-width wrap-around (fnv1a64, ceil_pow2_u32);
  * pointers to Entry structs are modelled by indices into a per-shard
    `entries` list; `Entry**` tables are lists of `Slot`
    (NULL = `Slot.empty`, TOMBSTONE_PTR = `Slot.tomb`);
  * byte buffers are `List Nat`; `memcpy`-ed values are carried by value,
    which is observationally faithful for the sequential API because the
    engine never reads a buffer after handing it back to a free list;
  * the unbounded probe loops (`for (;;)`) are given fuel equal to the
    table capacity: for a power-of-two capacity linear probing visits every
    slot within `cap` steps, so fuel exhaustion (`none`) models exactly the
    C code looping forever;
  * `time(NULL)` is one `now : Nat` argument per engine call;
  * OS allocation (malloc/mmap of tables) is assumed to succeed.
-/

inductive Slot where
  | empty : Slot
  | tomb : Slot
  | live : Nat → Slot
deriving DecidableEq, Repr, Inhabited

structure Entry where
  key : List Nat
  value : List Nat
  expire : Nat
  deleted : Bool
  vclass : Nat
deriving DecidableEq, Repr, Inhabited

structure Shard where
  pool_size : Nat
  pool_pos : Nat
  entries : List Entry
  tab : List Slot
  cap : Nat
  used : Nat
  count : Nat
  new_tab : Option (List Slot)
  new_cap : Nat
  new_used : Nat
  migrate_pos : Nat
  freelist : List Nat
  hits : Nat
  misses : Nat
deriving DecidableEq, Repr, Inhabited

/-- Error codes from hinotetsu3.h. -/
def HINOTETSU_OK : Nat := 0

def HINOTETSU_ERR_NOTFOUND : Nat := 1

def HINOTETSU_ERR_NOMEM : Nat := 2

def HINOTETSU_ERR_IO : Nat := 3

def HINOTETSU_ERR_TOOSMALL : Nat := 4

/-- HINOTETSU_MIGRATE_BATCH (default 16). -/
def MIGRATE_BATCH : Nat := 16

/-- HINOTETSU_SLAB_MIN_SHIFT (default 6, i.e. 64-byte blocks). -/
def SLAB_MIN_SHIFT : Nat := 6

/-- HINOTETSU_SLAB_MAX_SHIFT (default 12, i.e. 4-KiB blocks). -/
def SLAB_MAX_SHIFT : Nat := 12

/-- HINOTETSU_SLAB_PAGE_SIZE (default 64 KiB). -/
def SLAB_PAGE_SIZE : Nat := 65536

/-- VALUE_CLASS_BUMP: value served straight from the arena. -/
def VALUE_CLASS_BUMP : Nat := 255

/-- sizeof(Entry) on an LP64 platform: 8+8+4+4+4+1+1 padded to 32. -/
def ENTRY_SIZE : Nat := 32

/-- MAX_SET_BYTES of the daemons (1 MiB). -/
def MAX_SET_BYTES : Nat := 1048576

/-- `(n + 7u) & ~7u`: round up to a multiple of 8. -/
def round8 (n : Nat) : Nat := (n + 7) / 8 * 8

/-- ceil_pow2_u32: the bit-smearing round-up; `(y5 + 1)` wraps at 2^32. -/
def ceil_pow2_u32 (x : Nat) : Nat :=
  if x ≤ 1 then 1 else
    let y0 := x - 1
    let y1 := y0 ||| (y0 >>> 1)
    let y2 := y1 ||| (y1 >>> 2)
    let y3 := y2 ||| (y2 >>> 4)
    let y4 := y3 ||| (y3 >>> 8)
    let y5 := y4 ||| (y4 >>> 16)
    (y5 + 1) % 2 ^ 32

/-- The `while ((1u << shift) < cap) shift++` loop of class_for_size;
33 steps of fuel cover every uint32 `cap`. -/
def shift_loop (cap : Nat) : Nat → Nat → Nat
  | 0, s => s
  | f + 1, s => if 2 ^ s < cap then shift_loop cap f (s + 1) else s

/-- class_for_size from hinotetsu3.c / hinotetsu2.c (identical in both):
`n` is clamped to 1, truncated to uint32, rounded to a power of two; the
resulting shift is clamped to SLAB_MIN_SHIFT and escapes to BUMP above
SLAB_MAX_SHIFT. -/
def class_for_size (n : Nat) : Nat :=
  let n1 := if n = 0 then 1 else n
  let need := n1 % 2 ^ 32
  let cap := ceil_pow2_u32 need
  let s0 := shift_loop cap 33 0
  let s1 := if s0 < SLAB_MIN_SHIFT then SLAB_MIN_SHIFT else s0
  if s1 > SLAB_MAX_SHIFT then VALUE_CLASS_BUMP else s1

/-- class_size: `1 << shift`. -/
def class_size (shift : Nat) : Nat := 2 ^ shift

/-- is_expired: `e->expire != 0 && e->expire <= now`. -/
def is_expired (e : Entry) (now : Nat) : Bool :=
  e.expire != 0 && decide (e.expire ≤ now)

/-- fnv1a64 inner step (64-bit wrap-around multiply). -/
def fnv_step (h b : Nat) : Nat := ((h ^^^ (b % 256)) * 1099511628211) % 2 ^ 64

/-- fnv1a64 over the key bytes (offset constant as written in the source). -/
def fnv1a64 (key : List Nat) : Nat := key.foldl fnv_step 1469598103934665603

/-- idx_for: `h & (cap - 1)`. -/
def idx_for (h cap : Nat) : Nat := h &&& (cap - 1)

/-- key_eq: length comparison plus memcmp, i.e. list equality. -/
def key_eq (e : Entry) (key : List Nat) : Bool := e.key == key

/-- pool_alloc: bump allocation; returns the old offset (the C pointer is
`pool + pool_pos`) and the advanced shard, or `none` for out-of-memory.
The failure test uses the already-rounded size, exactly as in the C where
`n` is reassigned before the bounds check. -/
def pool_alloc (s : Shard) (n : Nat) : Option (Nat × Shard) :=
  let n' := round8 n
  if s.pool_pos + n' > s.pool_size then none
  else some (s.pool_pos, { s with pool_pos := s.pool_pos + n' })

/-- slab_push: one block goes back onto the class free list (free lists are
modelled by per-class block counts; block identity is unobservable). -/
def slab_push (s : Shard) (shift : Nat) : Shard :=
  { s with freelist := s.freelist.set shift (s.freelist.getD shift 0 + 1) }

/-- slab_refill: carve one page from the arena into `page / bsz` blocks.
A failed pool_alloc leaves the shard untouched. -/
def slab_refill (s : Shard) (shift : Nat) : Shard :=
  let bsz := class_size shift
  let page1 := if SLAB_PAGE_SIZE < bsz * 8 then bsz * 8 else SLAB_PAGE_SIZE
  let page := round8 page1
  match pool_alloc s page with
  | none => s
  | some (_, s') =>
      { s' with freelist := s'.freelist.set shift (s'.freelist.getD shift 0 + page / bsz) }

/-- Four refills of one class (the prewarm loop body). -/
def slab_refill4 (s : Shard) (shift : Nat) : Shard :=
  slab_refill (slab_refill (slab_refill (slab_refill s shift) shift) shift) shift

/-- slab_prewarm: four pages for every in-range class. -/
def slab_prewarm (s : Shard) : Shard :=
  (List.range' SLAB_MIN_SHIFT (SLAB_MAX_SHIFT - SLAB_MIN_SHIFT + 1)).foldl slab_refill4 s

/-- value_alloc: slab pop with on-demand refill, or arena bump for BUMP
class. Returns the shard and the class tag, `none` on out-of-memory (in
which case the C shard is unchanged: a refill that produced no block left
the pool untouched). -/
def value_alloc (s : Shard) (n : Nat) : Option (Shard × Nat) :=
  let shift := class_for_size n
  if shift = VALUE_CLASS_BUMP then
    match pool_alloc s n with
    | none => none
    | some (_, s') => some (s', VALUE_CLASS_BUMP)
  else
    let s1 := if s.freelist.getD shift 0 = 0 then slab_refill s shift else s
    if s1.freelist.getD shift 0 = 0 then none
    else some ({ s1 with freelist := s1.freelist.set shift (s1.freelist.getD shift 0 - 1) },
               shift)

/-- value_free: BUMP frees are no-ops, otherwise the block is pushed onto
its class free list. -/
def value_free (s : Shard) (vclass : Nat) : Shard :=
  if vclass = VALUE_CLASS_BUMP then s else slab_push s vclass

/-- entry_create_in_pool: allocate the Entry struct, the key copy and the
value buffer in order; a failure returns `none` for the index but keeps
whatever arena advance already happened (the C does not roll back).
On success the new entry is appended and its index returned. -/
def entry_create_in_pool (s : Shard) (key val : List Nat) (ttl now : Nat) :
    Shard × Option Nat :=
  match pool_alloc s ENTRY_SIZE with
  | none => (s, none)
  | some (_, s1) =>
    match pool_alloc s1 key.length with
    | none => (s1, none)
    | some (_, s2) =>
      match value_alloc s2 val.length with
      | none => (s2, none)
      | some (s3, vclass) =>
        let e : Entry := { key := key, value := val,
                           expire := if ttl = 0 then 0 else now + ttl,
                           deleted := false, vclass := vclass }
        ({ s3 with entries := s3.entries ++ [e] }, some s3.entries.length)

/-- find_insert_slot probe loop. Carries the probe index and the first
tombstone seen; `fuel` models the unbounded C loop (with a power-of-two
capacity, `cap` steps visit every slot, so `none` = the C spins forever). -/
def find_insert_go (tab : List Slot) (entries : List Entry) (key : List Nat)
    (cap : Nat) : Nat → Option Nat → Nat → Option (Nat × Bool)
  | _, _, 0 => none
  | idx, first_tomb, fuel + 1 =>
    match tab.getD idx Slot.empty with
    | Slot.empty => some (first_tomb.getD idx, false)
    | Slot.tomb =>
        find_insert_go tab entries key cap ((idx + 1) &&& (cap - 1))
          (if first_tomb.isNone then some idx else first_tomb) fuel
    | Slot.live e =>
        if key_eq (entries.getD e default) key then some (idx, true)
        else find_insert_go tab entries key cap ((idx + 1) &&& (cap - 1)) first_tomb fuel

/-- find_insert_slot: probe from `h & (cap-1)`; `(idx, true)` is the first
key match, `(idx, false)` is the first tombstone if any, else the
terminating empty slot. -/
def find_insert_slot (tab : List Slot) (entries : List Entry) (key : List Nat)
    (cap h : Nat) : Option (Nat × Bool) :=
  find_insert_go tab entries key cap (idx_for h cap) none cap

/-- The probe loop shared by get_into_internal and delete_internal (the C
duplicates it verbatim in both): stop at the first key match (regardless of
deleted/expired — the caller checks) or at the first empty slot.
`some none` = stopped at an empty slot, `some (some (idx, e))` = first
match, `none` = fuel exhausted. -/
def search_go (tab : List Slot) (entries : List Entry) (key : List Nat)
    (cap : Nat) : Nat → Nat → Option (Option (Nat × Nat))
  | _, 0 => none
  | idx, fuel + 1 =>
    match tab.getD idx Slot.empty with
    | Slot.empty => some none
    | Slot.tomb => search_go tab entries key cap ((idx + 1) &&& (cap - 1)) fuel
    | Slot.live e =>
        if key_eq (entries.getD e default) key then some (some (idx, e))
        else search_go tab entries key cap ((idx + 1) &&& (cap - 1)) fuel

/-- The bounded `for (i = 0; i < cap; i++)` search of the incoming table:
running out of iterations leaves `e == NULL`, i.e. "no match". -/
def search_new_tab (nt : List Slot) (entries : List Entry) (key : List Nat)
    (cap h : Nat) : Option (Nat × Nat) :=
  (search_go nt entries key cap (idx_for h cap) cap).getD none

/-- table_insert probe: skip live slots, stop at NULL or TOMBSTONE. -/
def table_insert_go (tab : List Slot) (cap : Nat) : Nat → Nat → Option Nat
  | _, 0 => none
  | idx, fuel + 1 =>
    match tab.getD idx Slot.empty with
    | Slot.live _ => table_insert_go tab cap ((idx + 1) &&& (cap - 1)) fuel
    | _ => some idx

/-- table_insert (migration helper): rehash the entry's key, land on the
first non-live slot; `used` counts only empty→live transitions. -/
def table_insert (tab : List Slot) (cap : Nat) (entries : List Entry)
    (e : Nat) (used : Nat) : Option (List Slot × Nat) :=
  match table_insert_go tab cap (idx_for (fnv1a64 (entries.getD e default).key) cap) cap with
  | none => none
  | some idx =>
      some (tab.set idx (Slot.live e),
            if tab.getD idx Slot.empty = Slot.empty then used + 1 else used)

/-- The `while (migrate_pos < cap && migrated < MIGRATE_BATCH)` loop of
shard_migrate_batch. Returns the final cursor, incoming table and its
used count. Fuel `cap` always suffices (the cursor advances every step). -/
def migrate_go (old : List Slot) (entries : List Entry) (now new_cap cap : Nat) :
    Nat → Nat → List Slot → Nat → Nat → Option (Nat × List Slot × Nat)
  | pos, migrated, nt, nused, 0 =>
      if pos < cap ∧ migrated < MIGRATE_BATCH then none else some (pos, nt, nused)
  | pos, migrated, nt, nused, fuel + 1 =>
      if pos < cap ∧ migrated < MIGRATE_BATCH then
        match old.getD pos Slot.empty with
        | Slot.empty => migrate_go old entries now new_cap cap (pos + 1) migrated nt nused fuel
        | Slot.tomb => migrate_go old entries now new_cap cap (pos + 1) migrated nt nused fuel
        | Slot.live e =>
          let en := entries.getD e default
          if en.deleted || is_expired en now then
            migrate_go old entries now new_cap cap (pos + 1) migrated nt nused fuel
          else
            match table_insert nt new_cap entries e nused with
            | none => none
            | some (nt', nused') =>
                migrate_go old entries now new_cap cap (pos + 1) (migrated + 1) nt' nused' fuel
      else some (pos, nt, nused)

/-- The promotion recount: `if (e && e != TOMBSTONE && !e->deleted) live++`
(an expired but not deleted entry still counts, as in the C). -/
def count_live (tab : List Slot) (entries : List Entry) : Nat :=
  tab.countP fun sl =>
    match sl with
    | Slot.live e => !(entries.getD e default).deleted
    | _ => false

/-- shard_migrate_batch: migrate up to MIGRATE_BATCH live entries, then
promote the incoming table (freeing the old one and recounting live
entries) once the cursor has swept the whole current table. -/
def shard_migrate_batch (s : Shard) (now : Nat) : Option Shard :=
  match s.new_tab with
  | none => some s
  | some nt =>
    match migrate_go s.tab s.entries now s.new_cap s.cap s.migrate_pos 0 nt s.new_used s.cap with
    | none => none
    | some (pos', nt', nused') =>
      if pos' ≥ s.cap then
        some { s with
                tab := nt', cap := s.new_cap, used := nused',
                new_tab := none, new_cap := 0, new_used := 0, migrate_pos := 0,
                count := count_live nt' s.entries }
      else
        some { s with new_tab := some nt', new_used := nused', migrate_pos := pos' }

/-- shard_start_resize: allocate the incoming table at `2 * cap`, at least
the configured initial capacity (the OS allocation is assumed to succeed). -/
def shard_start_resize (icap : Nat) (s : Shard) : Shard :=
  match s.new_tab with
  | some _ => s
  | none =>
    let nc0 := s.cap * 2
    let nc := if nc0 < icap then icap else nc0
    { s with new_tab := some (List.replicate nc Slot.empty),
             new_cap := nc, new_used := 0, migrate_pos := 0 }

/-- shard_maybe_grow: run a migration batch if one is in progress, else
start a resize when `used + 1` crosses 7/10 of the capacity and migrate a
first batch immediately. `icap` is the compile-time HINOTETSU_INIT_CAP. -/
def shard_maybe_grow (icap : Nat) (s : Shard) (now : Nat) : Option Shard :=
  match s.new_tab with
  | some _ => shard_migrate_batch s now
  | none =>
    if s.used + 1 > s.cap * 7 / 10 then
      shard_migrate_batch (shard_start_resize icap s) now
    else some s

/-- The overwrite branch of set_internal: allocate the new value buffer,
free the old one, then update the entry in place (value, class, deleted
flag cleared, expiry recomputed). -/
def set_exist_update (s : Shard) (eidx : Nat) (value : List Nat) (ttl now : Nat) :
    Option (Nat × Shard) :=
  match value_alloc s value.length with
  | none => some (HINOTETSU_ERR_NOMEM, s)
  | some (s1, nc) =>
    let en := s1.entries.getD eidx default
    let s2 := value_free s1 en.vclass
    let en' := { en with
                  value := value, vclass := nc, deleted := false,
                  expire := if ttl = 0 then 0 else now + ttl }
    some (HINOTETSU_OK, { s2 with entries := s2.entries.set eidx en' })

/-- The create-new branch of set_internal: build the entry in the pool,
re-run find_insert_slot on the target (incoming if resizing, else current)
table and install at an empty slot (bumping `used`) or a tombstone. -/
def set_insert_new (s1 : Shard) (key value : List Nat) (ttl now h : Nat) :
    Option (Nat × Shard) :=
  match entry_create_in_pool s1 key value ttl now with
  | (s2, none) => some (HINOTETSU_ERR_NOMEM, s2)
  | (s2, some eidx) =>
    let target_tab := s2.new_tab.getD s2.tab
    let target_cap := if s2.new_tab.isSome then s2.new_cap else s2.cap
    match find_insert_slot target_tab s2.entries key target_cap h with
    | none => none
    | some (idx, _) =>
      match target_tab.getD idx Slot.empty with
      | Slot.empty =>
        let tt := target_tab.set idx (Slot.live eidx)
        let s3 := if s2.new_tab.isSome then
                    { s2 with new_tab := some tt, new_used := s2.new_used + 1 }
                  else { s2 with tab := tt, used := s2.used + 1 }
        some (HINOTETSU_OK, { s3 with count := s3.count + 1 })
      | Slot.tomb =>
        let tt := target_tab.set idx (Slot.live eidx)
        let s3 := if s2.new_tab.isSome then { s2 with new_tab := some tt }
                  else { s2 with tab := tt }
        some (HINOTETSU_OK, { s3 with count := s3.count + 1 })
      | Slot.live _ => some ( HINOTETSU_ERR_IO, s2)

/-- set_internal from hinotetsu3.c: migration work first, then probe the
incoming table (if any) and the current table for the key; a found live
entry is overwritten in place, otherwise a fresh entry is installed in the
newest table. -/
def set_internal (icap : Nat) (s0 : Shard) (key value : List Nat) (ttl now : Nat) :
    Option (Nat × Shard) :=
  match shard_maybe_grow icap s0 now with
  | none => none
  | some s =>
    let h := fnv1a64 key
    match s.new_tab with
    | some nt =>
      match find_insert_slot nt s.entries key s.new_cap h with
      | none => none
      | some (idx_new, found_new) =>
        match find_insert_slot s.tab s.entries key s.cap h with
        | none => none
        | some (idx_old, found_old) =>
          if found_new then
            match nt.getD idx_new Slot.empty with
            | Slot.live e => set_exist_update s e value ttl now
            | _ => set_insert_new s key value ttl now h
          else if found_old then
            match s.tab.getD idx_old Slot.empty with
            | Slot.live e => set_exist_update s e value ttl now
            | _ => set_insert_new s key value ttl now h
          else set_insert_new s key value ttl now h
    | none =>
      match find_insert_slot s.tab s.entries key s.cap h with
      | none => none
      | some (idx_old, found_old) =>
        if found_old then
          match s.tab.getD idx_old Slot.empty with
          | Slot.live e => set_exist_update s e value ttl now
          | _ => set_insert_new s key value ttl now h
        else set_insert_new s key value ttl now h

/-- Result of get_into_internal. `ok` carries the bytes copied into the
caller's buffer; `toosmall` carries the required length and models that the
destination buffer was not written. -/
inductive GetRes where
  | ok (bytes : List Nat) : GetRes
  | notfound : GetRes
  | toosmall (need : Nat) : GetRes
deriving DecidableEq, Repr

/-- `!cur->deleted && !is_expired(cur, now)` for an entry index. -/
def good_entry (entries : List Entry) (e now : Nat) : Bool :=
  let en := entries.getD e default
  !en.deleted && !is_expired en now

/-- The hit tail of get_into_internal: count the hit, report the length,
and copy out only if the destination is large enough. -/
def get_hit (s : Shard) (e dst_cap : Nat) : GetRes × Shard :=
  let en := s.entries.getD e default
  let s' := { s with hits := s.hits + 1 }
  if en.value.length > dst_cap then (GetRes.toosmall en.value.length, s')
  else (GetRes.ok en.value, s')

/-- get_into_internal from hinotetsu3.c: one migration batch when resizing,
then search the incoming table (bounded loop), then the current table; the
first key match decides — a deleted or expired match falls through (new
table) or misses (current table). -/
def get_into_internal (s0 : Shard) (key : List Nat) (dst_cap now : Nat) :
    Option (GetRes × Shard) :=
  match shard_migrate_batch s0 now with
  | none => none
  | some s =>
    let h := fnv1a64 key
    let enew : Option (Nat × Nat) :=
      match s.new_tab with
      | some nt => search_new_tab nt s.entries key s.new_cap h
      | none => none
    let e1 : Option Nat :=
      match enew with
      | some (_, e) => if good_entry s.entries e now then some e else none
      | none => none
    match e1 with
    | some e => some (get_hit s e dst_cap)
    | none =>
      match search_go s.tab s.entries key s.cap (idx_for h s.cap) s.cap with
      | none => none
      | some res =>
        match res with
        | some (_, e) =>
          if good_entry s.entries e now then some (get_hit s e dst_cap)
          else some (GetRes.notfound, { s with misses := s.misses + 1 })
        | none => some (GetRes.notfound, { s with misses := s.misses + 1 })

/-- The mutation tail of delete_internal: free the value buffer, set the
entry's deleted flag, tombstone the slot in the table where the entry was
found, and decrement the live count (C guards `if (s->count)`, which on
Nat is plain truncated subtraction). -/
def delete_apply (s : Shard) (in_new : Bool) (idx e : Nat) : Nat × Shard :=
  let en := s.entries.getD e default
  let s1 := value_free s en.vclass
  let s2 := { s1 with entries := s1.entries.set e { en with deleted := true } }
  let s3 := if in_new then
              { s2 with new_tab := some ((s2.new_tab.getD []).set idx Slot.tomb) }
            else { s2 with tab := s2.tab.set idx Slot.tomb }
  (HINOTETSU_OK, { s3 with count := s3.count - 1 })

/-- The current-table half of delete_internal's search. -/
def delete_search_old (s : Shard) (key : List Nat) (h now : Nat) :
    Option (Nat × Shard) :=
  match search_go s.tab s.entries key s.cap (idx_for h s.cap) s.cap with
  | none => none
  | some (some (idx, e)) =>
      if good_entry s.entries e now then some (delete_apply s false idx e)
      else some (HINOTETSU_ERR_NOTFOUND, s)
  | some none => some (HINOTETSU_ERR_NOTFOUND, s)

/-- delete_internal from hinotetsu3.c: one migration batch when resizing,
then search the incoming table and the current table; only a live,
unexpired match is deleted. -/
def delete_internal (s0 : Shard) (key : List Nat) (now : Nat) :
    Option (Nat × Shard) :=
  match shard_migrate_batch s0 now with
  | none => none
  | some s =>
    let h := fnv1a64 key
    match s.new_tab with
    | some nt =>
      match search_new_tab nt s.entries key s.new_cap h with
      | some (idx, e) =>
        if good_entry s.entries e now then some (delete_apply s true idx e)
        else delete_search_old s key h now
      | none => delete_search_old s key h now
    | none => delete_search_old s key h now

/-- The per-shard body of hinotetsu_flush_nolock (hinotetsu3.c): clear the
current table in place (its capacity is untouched), drop any incoming
table, reset the arena, counters and free lists, then re-run the slab
prewarm. Resetting the pool orphans every entry struct, so the model's
entry list is cleared. -/
def flush_shard (s : Shard) : Shard :=
  slab_prewarm
    { s with tab := List.replicate s.cap Slot.empty,
             new_tab := none, new_cap := 0, new_used := 0, migrate_pos := 0,
             pool_pos := 0, used := 0, count := 0, hits := 0, misses := 0,
             freelist := List.replicate 32 0, entries := [] }

/-- The per-shard body of hinotetsu_open (hinotetsu3.c): fresh table of the
given capacity, empty arena of the given size, zeroed counters and free
lists, then the slab prewarm. -/
def init_shard (cap pool_size : Nat) : Shard :=
  slab_prewarm
    { pool_size := pool_size, pool_pos := 0, entries := [],
      tab := List.replicate cap Slot.empty, cap := cap,
      used := 0, count := 0, new_tab := none, new_cap := 0, new_used := 0,
      migrate_pos := 0, freelist := List.replicate 32 0, hits := 0, misses := 0 }

/-- The engine: a list of shards (HINOTETSU_SHARDS of them in the C). -/
structure Hinotetsu where
  shards : List Shard
  pool_size_total : Nat
deriving Repr

/-- hinotetsu_flush_nolock: every shard is reset in turn. -/
def hinotetsu_flush_nolock (db : Hinotetsu) : Hinotetsu :=
  { db with shards := db.shards.map flush_shard }

/-- Migration eligibility, following the spec's words for the incremental
rehash: a slot is migrated unless it is empty, a tombstone, deleted or
expired. -/
def eligible (entries : List Entry) (now : Nat) (sl : Slot) : Bool :=
  match sl with
  | Slot.live e =>
      !(entries.getD e default).deleted && !is_expired (entries.getD e default) now
  | _ => false

/-
  Concrete engine states used by the counterexample and witness theorems.
  They are laid out hash-consistently: every live entry sits at the home
  slot of its key (`fnv1a64 key &&& (cap - 1)`), as linear probing without
  collisions would place it.
-/

/-- Sixteen single-byte keys whose fnv1a64 home slots in a 32-slot table
are exactly 1,2,…,16. -/
def lost_keys : List Nat := [24, 21, 18, 15, 4, 1, 30, 27, 16, 13, 10, 7, 28, 25, 22, 19]

/-- Entry 0 is the key `[3]` (home slot 0 in a 32-slot table), already
expired at time 100; entries 1..16 are the sixteen live fillers. -/
def lost_entries : List Entry :=
  { key := [3], value := [100], expire := 5, deleted := false, vclass := 6 } ::
    lost_keys.map fun b =>
      { key := [b], value := [b + 1], expire := 0, deleted := false, vclass := 6 }

/-- 32-slot table: slots 0..16 live (each at its key's home), six
tombstones from earlier deletions, the rest empty. -/
def lost_tab : List Slot :=
  (List.range 32).map fun i =>
    if i ≤ 16 then Slot.live i else if i ≤ 22 then Slot.tomb else Slot.empty

/-- A shard (configured initial capacity 32) one insert away from the
7/10 growth threshold: 23 occupied slots, 17 live entries, one of them
(key `[3]`) expired. No rehash is in progress yet. -/
def lost_state : Shard :=
  { pool_size := 4194304, pool_pos := 1835008, entries := lost_entries, tab := lost_tab,
    cap := 32, used := 23, count := 17,
    new_tab := none, new_cap := 0, new_used := 0,
    migrate_pos := 0, freelist := (List.replicate 32 0).set 6 4, hits := 0, misses := 0 }

/-- The set that revives the expired `[3]` entry. It triggers the resize
(24 > 22), migrates the first 16 live slots (skipping slot 0, whose entry
is expired at `now = 100`), then finds `[3]`'s entry via the old table and
overwrites it in place, leaving it only in the already-migrated region. -/
def lost_run_set : Option (Nat × Shard) :=
  set_internal 32 lost_state [3] [104, 0, 13, 10] 0 100

/-- The immediately following get: its migration batch sweeps the rest of
the old table and promotes the incoming table, which never received the
revived entry. -/
def lost_run_get : Option (GetRes × Shard) :=
  lost_run_set.bind fun r => get_into_internal r.2 [3] 8192 100

/-- Forty-eight single-byte keys whose fnv1a64 home slots in a 64-slot
table are exactly 1,2,…,48. -/
def revive_keys : List Nat :=
  [56, 53, 50, 47, 36, 33, 30, 27, 16, 13, 10, 7, 60, 57, 54, 51,
   40, 37, 34, 31, 20, 17, 14, 11, 0, 61, 58, 55, 44, 41, 38, 35,
   24, 21, 18, 15, 4, 1, 62, 59, 48, 45, 42, 39, 28, 25, 22, 19]

/-- Entry 0 is the live key `[3]` (home slot 0 of a 64-slot table);
entries 1..48 are live fillers at their home slots. -/
def revive_entries : List Entry :=
  { key := [3], value := [1], expire := 0, deleted := false, vclass := 6 } ::
    revive_keys.map fun b =>
      { key := [b], value := [b + 1], expire := 0, deleted := false, vclass := 6 }

/-- 64-slot table: slots 0..48 live, the rest empty. -/
def revive_tab : List Slot :=
  (List.range 64).map fun i => if i ≤ 48 then Slot.live i else Slot.empty

/-- A shard (configured initial capacity 64) one insert away from the
growth threshold (50 > 44), holding 49 live entries including key `[3]`.
No rehash is in progress yet. -/
def revive_state : Shard :=
  { pool_size := 8388608, pool_pos := 1835008, entries := revive_entries, tab := revive_tab,
    cap := 64, used := 49, count := 49,
    new_tab := none, new_cap := 0, new_used := 0,
    migrate_pos := 0, freelist := (List.replicate 32 0).set 6 8, hits := 0, misses := 0 }

/-- First set: triggers the resize and migrates slots 0..15 (including
`[3]`'s entry) into the incoming table, then overwrites `[3]` in place. -/
def revive_run1 : Option (Nat × Shard) := set_internal 64 revive_state [3] [7, 7] 0 100

/-- Delete of `[3]`: migrates slots 16..31, finds the entry in the
incoming table, sets its deleted flag and tombstones only the incoming
slot — the old-table slot still points at the same entry. -/
def revive_run2 : Option (Nat × Shard) := revive_run1.bind fun r => delete_internal r.2 [3] 100

/-- Second set of `[3]`: migrates slots 32..47 (the rehash is still in
progress), finds no match in the incoming table (tombstone), but reaches
the deleted entry through the old table and overwrites it in place,
clearing its deleted flag. -/
def revive_run3 : Option (Nat × Shard) :=
  revive_run2.bind fun r => set_internal 64 r.2 [3] [9, 9] 0 100

/-- A shard grown from the configured initial capacity 4 to capacity 8 by
three inserts (the third crosses `used + 1 > 4*7/10` and the resize
completes within the same call because the table is small). -/
def grown_shard : Option Shard :=
  (set_internal 4 (init_shard 4 16777216) [1] [5] 0 100).bind fun r1 =>
    (set_internal 4 r1.2 [2] [5] 0 100).bind fun r2 =>
      (set_internal 4 r2.2 [4] [5] 0 100).map fun r3 => r3.2

/-- A mid-rehash shard whose next migration batch promotes the incoming
table (the old table holds one live entry and one tombstone, so `used`
drops from 2 to 1 on promotion), and whose arena has room for an Entry
struct but not for the key copy. -/
def oom_resizing_state : Shard :=
  { pool_size := 64, pool_pos := 32,
    entries := [{ key := [5], value := [1], expire := 0, deleted := false, vclass := 6 }],
    tab := [Slot.live 0, Slot.tomb, Slot.empty, Slot.empty],
    cap := 4, used := 2, count := 1,
    new_tab := some (List.replicate 8 Slot.empty), new_cap := 8, new_used := 0,
    migrate_pos := 0, freelist := List.replicate 32 0, hits := 0, misses := 0 }

/-- A quiet shard (no rehash, growth not triggered) whose arena has room
for an Entry struct but not for the key copy. -/
def oom_quiet_state : Shard :=
  { pool_size := 64, pool_pos := 32, entries := [],
    tab := [Slot.empty, Slot.empty, Slot.empty, Slot.empty],
    cap := 4, used := 0, count := 0,
    new_tab := none, new_cap := 0, new_used := 0,
    migrate_pos := 0, freelist := List.replicate 32 0, hits := 0, misses := 0 }

/-- A shard whose arena is six bytes short of full. -/
def near_full_arena : Shard :=
  { pool_size := 1048576, pool_pos := 1048570, entries := [], tab := [], cap := 0,
    used := 0, count := 0, new_tab := none, new_cap := 0, new_used := 0,
    migrate_pos := 0, freelist := [], hits := 0, misses := 0 }


/-- Specification predicate for the hit/miss counter discipline of
get_into_internal (claim C10), phrased against the pre-call entry pool and
counters: exactly one of hits/misses is incremented; a hit (including the
TooSmall outcome, which reports the required length and carries no bytes)
is backed by a live, unexpired, undeleted entry whose key matches; and if
every matching entry in the pool is deleted or expired the call misses. -/
def get_outcome_spec (entries0 : List Entry) (hits0 misses0 : Nat) (key : List Nat)
    (dst_cap now : Nat) (r : GetRes) (s' : Shard) : Prop :=
  s'.entries = entries0 ∧
  s'.hits + s'.misses = hits0 + misses0 + 1 ∧
  (r = GetRes.notfound → s'.misses = misses0 + 1 ∧ s'.hits = hits0) ∧
  (r ≠ GetRes.notfound → s'.hits = hits0 + 1 ∧ s'.misses = misses0 ∧
    ∃ e, e < entries0.length ∧
      key_eq (entries0.getD e default) key = true ∧
      good_entry entries0 e now = true ∧
      ((∃ need, r = GetRes.toosmall need ∧
          need = (entries0.getD e default).value.length ∧ dst_cap < need) ∨
       (r = GetRes.ok (entries0.getD e default).value ∧
          (entries0.getD e default).value.length ≤ dst_cap))) ∧
  ((∀ i, i < entries0.length → key_eq (entries0.getD i default) key = true →
      good_entry entries0 i now = false) → r = GetRes.notfound)

/-- A quiet one-entry shard: key `[3]` (home slot 0 of a 4-slot table)
holds a 5-byte live value. -/
def get_witness_state : Shard :=
  { pool_size := 1048576, pool_pos := 0,
    entries := [{ key := [3], value := [1, 2, 3, 4, 5], expire := 0,
                  deleted := false, vclass := 6 }],
    tab := [Slot.live 0, Slot.empty, Slot.empty, Slot.empty],
    cap := 4, used := 1, count := 1,
    new_tab := none, new_cap := 0, new_used := 0,
    migrate_pos := 0, freelist := List.replicate 32 0, hits := 0, misses := 0 }

/-- The same shard with the `[3]` entry already expired at time 100. -/
def expired_witness_state : Shard :=
  { pool_size := 1048576, pool_pos := 0,
    entries := [{ key := [3], value := [1, 2, 3, 4, 5], expire := 5,
                  deleted := false, vclass := 6 }],
    tab := [Slot.live 0, Slot.empty, Slot.empty, Slot.empty],
    cap := 4, used := 1, count := 1,
    new_tab := none, new_cap := 0, new_used := 0,
    migrate_pos := 0, freelist := List.replicate 32 0, hits := 0, misses := 0 }

/-- The result code of a concrete set run used to exhibit arena monotonicity. -/
def c7_set_rc : Nat := ((set_internal 4 oom_quiet_state [1] [2, 3] 0 0).getD (0, default)).1

/-- The final shard of that concrete set run. -/
def c7_set_final : Shard := ((set_internal 4 oom_quiet_state [1] [2, 3] 0 0).getD (0, default)).2

/-- The result of a concrete get run on that shard. -/
def c7_get_res : GetRes := ((get_into_internal c7_set_final [1] 8 0).getD (GetRes.notfound, default)).1

/-- The final shard of that concrete get run. -/
def c7_get_final : Shard := ((get_into_internal c7_set_final [1] 8 0).getD (GetRes.notfound, default)).2

/-- The result code of a concrete delete run on that shard. -/
def c7_del_rc : Nat := ((delete_internal c7_set_final [1] 0).getD (0, default)).1

/-- The final shard of that concrete delete run. -/
def c7_del_final : Shard := ((delete_internal c7_set_final [1] 0).getD (0, default)).2

/-- The five or-shift steps of ceil_pow2_u32 in isolation (the body between
`x - 1` and the final `+ 1`). -/
def smear32 (m : Nat) : Nat :=
  let y1 := m ||| (m >>> 1)
  let y2 := y1 ||| (y1 >>> 2)
  let y3 := y2 ||| (y2 >>> 4)
  let y4 := y3 ||| (y3 >>> 8)
  y4 ||| (y4 >>> 16)

/-- How many slots of `tab` in the cursor range `[a, b)` hold a live,
undeleted, unexpired entry — i.e. how many entries one batch sweep over
that range migrates. -/
def migrated_count (tab : List Slot) (entries : List Entry) (now a b : Nat) : Nat :=
  (List.range' a (b - a)).countP fun i => eligible entries now (tab.getD i Slot.empty)

/-- A small shard mid-resize: capacity 4 growing to 8, cursor at 0, one
eligible entry (index 0), one deleted (1), one expired (2). -/
def c4_resizing : Shard :=
  { pool_size := 1024, pool_pos := 128,
    entries :=
      [ { key := [9], value := [1], expire := 0, deleted := false, vclass := 6 },
        { key := [5], value := [2], expire := 0, deleted := true, vclass := 6 },
        { key := [7], value := [3], expire := 5, deleted := false, vclass := 6 } ],
    tab := [Slot.live 0, Slot.tomb, Slot.live 1, Slot.live 2],
    cap := 4, used := 3, count := 1,
    new_tab := some (List.replicate 8 Slot.empty), new_cap := 8, new_used := 0,
    migrate_pos := 0, freelist := List.replicate 32 0, hits := 0, misses := 0 }

/-- The same shard one op later (batch run at now = 100). -/
def c4_mig_final : Shard := (shard_migrate_batch c4_resizing 100).getD default

/-- A quiet shard one insert short of the 7/10 load trigger crossing. -/
def c4_trigger : Shard := { oom_quiet_state with used := 3 }

/-
  Model of the libuv daemon front end (hinotetsu2d_uv.c). Buffers are byte
  lists; a C string's NUL terminator is the end of the list, and a 0 byte
  inside a line keeps its C-string meaning (every scanner stops on it).
  The storage engine behind the handlers is a parameter: a `Backend`
  bundles the five engine entry points the daemon calls, so every theorem
  about the dispatch loop holds for any engine. Network writes are the
  returned byte list; allocation is assumed to succeed, as elsewhere.
-/

/-- ASCII bytes of a string literal. -/
def ascii (s : String) : List Nat := s.data.map Char.toNat

def MAX_LINE : Nat := 4096
def MAX_KEY : Nat := 250
def INT32_MAX : Int := 2147483647

/-- find_crlf: index of the first CR immediately followed by LF. -/
def find_crlf : List Nat → Option Nat
  | [] => none
  | [_] => none
  | a :: b :: t =>
    if a = 13 ∧ b = 10 then some 0
    else (find_crlf (b :: t)).map (fun i => i + 1)

/-- skip_spaces: drop leading blanks and tabs. -/
def skip_spaces : List Nat → List Nat
  | [] => []
  | c :: t => if c = 32 ∨ c = 9 then skip_spaces t else c :: t

/-- True at a C string's end: the list is exhausted or a NUL byte is next. -/
def at_line_end (l : List Nat) : Bool := l.headD 0 == 0

/-- The copy loop of parse_token: bytes are kept only while the write index
stays below out_size - 1, but the cursor always passes the whole token. -/
def parse_token_go (out_size : Nat) : Nat → List Nat → List Nat × List Nat
  | _, [] => ([], [])
  | i, c :: t =>
    if c = 0 ∨ c = 32 ∨ c = 9 ∨ c = 13 ∨ c = 10 then ([], c :: t)
    else
      ((if i < out_size - 1 then
          c :: (parse_token_go out_size (i + 1) t).1
        else (parse_token_go out_size i t).1),
       (if i < out_size - 1 then (parse_token_go out_size (i + 1) t).2
        else (parse_token_go out_size i t).2))

/-- parse_token: skip blanks, then cut the next token (truncated to the
output buffer), returning it with the cursor after the full token. -/
def parse_token (p : List Nat) (out_size : Nat) : List Nat × List Nat :=
  parse_token_go out_size 0 (skip_spaces p)

/-- isdigit on a byte. -/
def is_digit_byte (c : Nat) : Bool := 48 ≤ c && c ≤ 57

/-- The digit loop of parse_uint with the INT32_MAX overflow guard. -/
def parse_uint_digits : Int → List Nat → List Nat × Option Int
  | val, [] => ([], some val)
  | val, c :: t =>
    if is_digit_byte c then
      if val * 10 + ((c : Int) - 48) > INT32_MAX then (c :: t, none)
      else parse_uint_digits (val * 10 + ((c : Int) - 48)) t
    else (c :: t, some val)

/-- parse_uint: optional minus sign, digits, overflow above INT32_MAX; the
result is the signed value (so it can be negative). -/
def parse_uint (p : List Nat) : List Nat × Option Int :=
  match skip_spaces p with
  | [] => ([], none)
  | c :: t =>
    if c = 45 then
      match t with
      | [] => ([], none)
      | d :: _ =>
        if is_digit_byte d then
          match parse_uint_digits 0 t with
          | (rest, some v) => (rest, some (-v))
          | (rest, none) => (rest, none)
        else (t, none)
    else if is_digit_byte c then parse_uint_digits 0 (c :: t)
    else (c :: t, none)

/-- parse_set_cmd: `set <key> <flags> <exptime> <bytes>` with a nonempty
key and a nonnegative, in-int-range bytes field; nothing may follow. -/
def parse_set_cmd (line : List Nat) : Option (List Nat × Int × Int × Int) :=
  if (parse_token line 16).1 = ascii "set" then
    let p1 := (parse_token line 16).2
    let key := (parse_token p1 251).1
    let p2 := (parse_token p1 251).2
    if key.length = 0 ∨ key.length > MAX_KEY then none
    else
      match parse_uint p2 with
      | (p3, some flags) =>
        match parse_uint p3 with
        | (p4, some exptime) =>
          match parse_uint p4 with
          | (p5, some bytes) =>
            if bytes < 0 then none
            else if at_line_end (skip_spaces p5) then some (key, flags, exptime, bytes)
            else none
          | (_, none) => none
        | (_, none) => none
      | (_, none) => none
  else none

/-- parse_single_key_cmd: `<cmd> <key>` with a nonempty key and nothing
after it. -/
def parse_single_key_cmd (line : List Nat) (name : List Nat) : Option (List Nat) :=
  if (parse_token line 16).1 = name then
    let p1 := (parse_token line 16).2
    let key := (parse_token p1 251).1
    let p2 := (parse_token p1 251).2
    if key.length = 0 ∨ key.length > MAX_KEY then none
    else if at_line_end (skip_spaces p2) then some key
    else none
  else none

/-- The pending-set state a parsed set line leaves on the connection. -/
structure Pending where
  key : List Nat
  flags : Int
  exptime : Int
  bytes : Nat
deriving DecidableEq, Repr, Inhabited

/-- The five engine entry points the daemon calls, as a parameter: do_set
(key, clamped exptime, value bytes, success?), do_get (key, value bytes if
found — the TOOSMALL retry with the grown get buffer is internal to this
fetch), do_delete (key, found?), the formatted stats body, and flush. -/
structure Backend (E : Type) where
  do_set : E → List Nat → Nat → List Nat → E × Bool
  do_get : E → List Nat → E × Option (List Nat)
  do_delete : E → List Nat → E × Bool
  stats_text : E → List Nat
  do_flush : E → E

/-- Decimal digit rendering (fuelled; `n + 1` steps always suffice). -/
def decDigitsGo : Nat → Nat → List Nat → List Nat
  | 0, _, acc => acc
  | fuel + 1, n, acc =>
    if n < 10 then (48 + n) :: acc
    else decDigitsGo fuel (n / 10) ((48 + n % 10) :: acc)

def decDigits (n : Nat) : List Nat := decDigitsGo (n + 1) n []

/-- handle_get: `VALUE <key> 0 <len>\r\n<value>\r\nEND\r\n` on a hit, bare
`END\r\n` on a miss; the 512-byte header guard as in the C. -/
def handle_get (E : Type) (B : Backend E) (e : E) (key : List Nat) : E × List Nat :=
  match B.do_get e key with
  | (e', none) => (e', ascii "END\r\n")
  | (e', some v) =>
    let header := ascii "VALUE " ++ key ++ ascii " 0 " ++ decDigits v.length ++ [13, 10]
    if header.length ≥ 512 then (e', ascii "SERVER_ERROR\r\n")
    else (e', header ++ v ++ [13, 10] ++ ascii "END\r\n")

/-- parse_and_dispatch from hinotetsu2d_uv.c: the `for (;;)` loop over one
connection's input buffer. Result: appended output bytes, leftover input,
pending-set state, engine state, and whether `quit` closed the connection.
The fuel only bounds the loop (each pass consumes at least two bytes);
`none` cannot occur with fuel above the input length. -/
def parse_and_dispatch (E : Type) (B : Backend E) :
    Nat → List Nat → Option Pending → E →
      Option (List Nat × List Nat × Option Pending × E × Bool)
  | 0, _, _, _ => none
  | fuel + 1, inbuf, some pd, e =>
    if inbuf.length < pd.bytes + 2 then some ([], inbuf, some pd, e, false)
    else
      let r := B.do_set e pd.key (if pd.exptime < 0 then 0 else pd.exptime.toNat)
                 (inbuf.take pd.bytes)
      (parse_and_dispatch E B fuel (inbuf.drop (pd.bytes + 2)) none r.1).map
        (fun q => ((if r.2 then ascii "STORED\r\n"
                    else ascii "SERVER_ERROR out of memory\r\n") ++ q.1, q.2))
  | fuel + 1, inbuf, none, e =>
    match find_crlf inbuf with
    | none => some ([], inbuf, none, e, false)
    | some cr =>
      if cr > MAX_LINE then
        (parse_and_dispatch E B fuel (inbuf.drop (cr + 2)) none e).map
          (fun q => (ascii "CLIENT_ERROR bad command line format\r\n" ++ q.1, q.2))
      else
        let line := inbuf.take cr
        let rest := inbuf.drop (cr + 2)
        let cmd := (parse_token line 16).1
        if cmd = ascii "set" then
          match parse_set_cmd line with
          | none =>
            (parse_and_dispatch E B fuel rest none e).map
              (fun q => (ascii "CLIENT_ERROR bad command line format\r\n" ++ q.1, q.2))
          | some (key, flags, exptime, bytes) =>
            if bytes < 0 ∨ bytes > (MAX_SET_BYTES : Int) then
              (parse_and_dispatch E B fuel rest none e).map
                (fun q => (ascii "CLIENT_ERROR bad data chunk\r\n" ++ q.1, q.2))
            else
              parse_and_dispatch E B fuel rest
                (some { key := key, flags := flags, exptime := exptime,
                        bytes := bytes.toNat }) e
        else if cmd = ascii "get" then
          match parse_single_key_cmd line (ascii "get") with
          | none =>
            (parse_and_dispatch E B fuel rest none e).map
              (fun q => (ascii "CLIENT_ERROR bad command\r\n" ++ q.1, q.2))
          | some key =>
            (parse_and_dispatch E B fuel rest none (handle_get E B e key).1).map
              (fun q => ((handle_get E B e key).2 ++ q.1, q.2))
        else if cmd = ascii "delete" then
          match parse_single_key_cmd line (ascii "delete") with
          | none =>
            (parse_and_dispatch E B fuel rest none e).map
              (fun q => (ascii "CLIENT_ERROR bad command\r\n" ++ q.1, q.2))
          | some key =>
            (parse_and_dispatch E B fuel rest none (B.do_delete e key).1).map
              (fun q => ((if (B.do_delete e key).2 then ascii "DELETED\r\n"
                          else ascii "NOT_FOUND\r\n") ++ q.1, q.2))
        else if cmd = ascii "stats" then
          if at_line_end (skip_spaces (line.drop 5)) then
            (parse_and_dispatch E B fuel rest none e).map
              (fun q => (B.stats_text e ++ q.1, q.2))
          else
            (parse_and_dispatch E B fuel rest none e).map
              (fun q => (ascii "CLIENT_ERROR bad command\r\n" ++ q.1, q.2))
        else if cmd = ascii "flush_all" then
          if at_line_end (skip_spaces (line.drop 9)) then
            (parse_and_dispatch E B fuel rest none (B.do_flush e)).map
              (fun q => (ascii "OK\r\n" ++ q.1, q.2))
          else
            (parse_and_dispatch E B fuel rest none e).map
              (fun q => (ascii "CLIENT_ERROR bad command\r\n" ++ q.1, q.2))
        else if cmd = ascii "quit" then
          some ([], rest, none, e, true)
        else
          (parse_and_dispatch E B fuel rest none e).map
            (fun q => (ascii "ERROR\r\n" ++ q.1, q.2))

/-- A concrete trivial engine for exercising the dispatch loop. -/
def trivialBackend : Backend Unit :=
  { do_set := fun _ _ _ _ => ((), true),
    do_get := fun _ _ => ((), none),
    do_delete := fun _ _ => ((), false),
    stats_text := fun _ => [],
    do_flush := fun _ => () }

/-
  The single-table hinotetsu2.c engine — the one the libuv daemon links.
  Its arena, slab, hash and probe code is textually identical to
  hinotetsu3.c's (the shared definitions above serve both, and
  find_insert_slot is exactly its shard_find_slot); the table logic
  differs: one table, stop-the-world resize, and a delete path with no
  expiry check.
-/

structure Shard2 where
  pool_size : Nat
  pool_pos : Nat
  entries : List Entry
  tab : List Slot
  cap : Nat
  used : Nat
  count : Nat
  freelist : List Nat
  hits : Nat
  misses : Nat
deriving DecidableEq, Repr, Inhabited

/-- slab_push on the single-table shard (free lists as per-class counts,
as for hinotetsu3.c). -/
def h2_slab_push (s : Shard2) (shift : Nat) : Shard2 :=
  { s with freelist := s.freelist.set shift (s.freelist.getD shift 0 + 1) }

/-- value_free from hinotetsu2.c: BUMP frees are no-ops, otherwise the
block returns to its class free list. -/
def h2_value_free (s : Shard2) (vclass : Nat) : Shard2 :=
  if vclass = VALUE_CLASS_BUMP then s else h2_slab_push s vclass

/-- get_into_internal from hinotetsu2.c: probe with shard_find_slot (the
same first-tombstone loop as find_insert_slot), then the miss checks — a
deleted or expired match counts a miss, as in hinotetsu3.c. -/
def h2_get_into_internal (s : Shard2) (key : List Nat) (dst_cap now : Nat) :
    Option (GetRes × Shard2) :=
  match find_insert_slot s.tab s.entries key s.cap (fnv1a64 key) with
  | none => none
  | some (idx, found) =>
    if found then
      match s.tab.getD idx Slot.empty with
      | Slot.live e =>
        let en := s.entries.getD e default
        if en.deleted || is_expired en now then
          some (GetRes.notfound, { s with misses := s.misses + 1 })
        else
          let s1 := { s with hits := s.hits + 1 }
          if en.value.length > dst_cap then some (GetRes.toosmall en.value.length, s1)
          else some (GetRes.ok en.value, s1)
      | _ => some (GetRes.notfound, { s with misses := s.misses + 1 })
    else some (GetRes.notfound, { s with misses := s.misses + 1 })

/-- delete_internal from hinotetsu2.c (lines 324-337): after the probe the
only guards are NULL and TOMBSTONE — there is no deleted and no expiry
check — so a found entry is freed, tombstoned and HINOTETSU_OK returned
unconditionally. `if (s->count) s->count--` is Nat subtraction. -/
def h2_delete_internal (s : Shard2) (key : List Nat) : Option (Nat × Shard2) :=
  match find_insert_slot s.tab s.entries key s.cap (fnv1a64 key) with
  | none => none
  | some (idx, found) =>
    if found then
      match s.tab.getD idx Slot.empty with
      | Slot.live e =>
        let en := s.entries.getD e default
        let s1 := h2_value_free s en.vclass
        some (HINOTETSU_OK,
          { s1 with
              entries := s1.entries.set e { en with deleted := true },
              tab := s1.tab.set idx Slot.tomb,
              count := s1.count - 1 })
      | _ => some (HINOTETSU_ERR_NOTFOUND, s)
    else some (HINOTETSU_ERR_NOTFOUND, s)

/-- A hinotetsu2 shard holding key [3] (home slot 0 at capacity 4) whose
entry expired at 5. -/
def h2_expired_state : Shard2 :=
  { pool_size := 1024, pool_pos := 128,
    entries := [ { key := [3], value := [7, 7], expire := 5, deleted := false,
                   vclass := 6 } ],
    tab := [Slot.live 0, Slot.empty, Slot.empty, Slot.empty],
    cap := 4, used := 1, count := 1,
    freelist := List.replicate 32 0, hits := 0, misses := 0 }

/- ===================== theorems ===================== -/

/-- C1. The spec claims the set/get round trip holds for any prior engine
state. The code violates it: from `lost_state` (no rehash in progress),
`set([3], v, 0)` returns Ok — triggering the resize, migrating the first
batch (which skips the expired entry for `[3]`), and then reviving that
expired entry in place through the old table, below the migrate cursor.
The immediately following `get([3])` completes the migration, promotes the
incoming table (which never received the revived entry) and returns
NotFound instead of `v = [104, 0, 13, 10]`. -/
theorem set_get_roundtrip_lost_in_rehash :
    lost_run_set.map Prod.fst = some HINOTETSU_OK ∧
    lost_run_get.map Prod.fst = some GetRes.notfound ∧
    GetRes.notfound ≠ GetRes.ok [104, 0, 13, 10] :=
  ⟨rfl, rfl, by decide⟩

/-- C2. The spec claims the deleted flag is monotonic 0 → 1 within an
entry's lifetime and that an overwrite after delete installs a new entry.
The code violates it during an incremental rehash: after `revive_run2` the
entry for key `[3]` (entry index 0) has `deleted = true`; the subsequent
set (`revive_run3`) reaches the same entry through the old table (its
incoming-table slot is a tombstone, but the old-table slot still points at
it), flips `deleted` back to `false` in place, and installs no new entry
(the entry list length stays 49 and the live count is not re-incremented). -/
theorem tombstone_revived_in_rehash :
    revive_run2.map (fun r => (r.1, (r.2.entries.getD 0 default).deleted,
      (r.2.entries.getD 0 default).key, r.2.entries.length, r.2.count))
      = some (HINOTETSU_OK, true, [3], 49, 48) ∧
    revive_run3.map (fun r => (r.1, (r.2.entries.getD 0 default).deleted,
      (r.2.entries.getD 0 default).key, r.2.entries.length, r.2.count))
      = some (HINOTETSU_OK, false, [3], 49, 48) :=
  ⟨rfl, rfl⟩

/-- C3 counterexample. After growing a shard from the configured initial
capacity 4 to capacity 8, `flush` does not return it to the post-init
state: the table keeps capacity 8 (the C memsets the existing array, it
never reallocates at HINOTETSU_INIT_CAP), and the arena offset after flush
is the slab-prewarm consumption 1835008, not 0. -/
theorem flush_keeps_grown_capacity :
    grown_shard.map (fun s => ((flush_shard s).cap, (flush_shard s).pool_pos))
      = some (8, 1835008) ∧
    (init_shard 4 16777216).cap = 4 ∧ (8 : Nat) ≠ 4 ∧ (1835008 : Nat) ≠ 0 :=
  ⟨rfl, rfl, by decide, by decide⟩

/-- C3 amended. `flush` puts every shard into exactly the state that shard
initialisation would produce for the shard's *current* table capacity and
pool size: table cleared in place, any in-progress rehash discarded, arena
offset reset and re-advanced by the re-run slab prewarm, free lists
cleared and re-warmed, and all counters (`used`, `count`, `hits`,
`misses`) zeroed. It equals the true post-init state only when the shard
never grew past the configured initial capacity. -/
theorem flush_resets_to_init_at_current_capacity (db : Hinotetsu) :
    (hinotetsu_flush_nolock db).shards
      = db.shards.map (fun s => init_shard s.cap s.pool_size) :=
  rfl

/-- C6 counterexample. A set that fails with OutOfMemory can change the
engine's observable state: from `oom_resizing_state` the failing call
first runs a migration batch that promotes the incoming table (occupied
drops from 2 to 1), and then leaks the partial Entry-struct allocation
(arena offset grows from 32 to 64) before the key copy fails. -/
theorem failed_set_changes_occupied_and_arena :
    (set_internal 16384 oom_resizing_state [7] [1, 2, 3] 0 100).map
        (fun r => (r.1, r.2.pool_pos, r.2.used))
      = some (HINOTETSU_ERR_NOMEM, 64, 1) ∧
    oom_resizing_state.pool_pos = 32 ∧ oom_resizing_state.used = 2 :=
  ⟨rfl, rfl, rfl⟩

/-- C7 counterexample. `pool_alloc` does not fail exactly when
`p + n > S`: with `p = 1048570`, `S = 1048576` and `n = 3` we have
`p + n ≤ S`, yet the allocation fails because the bounds check uses the
size rounded up to a multiple of 8. -/
theorem pool_alloc_fails_below_limit :
    pool_alloc near_full_arena 3 = none ∧
    near_full_arena.pool_pos + 3 ≤ near_full_arena.pool_size :=
  ⟨rfl, by decide⟩

/-- C8 counterexample. For `n = 2^31 + 1` the smallest `k` with
`2^k ≥ n` is 32 > MAX_SHIFT, so the claim demands the BUMP class; but
`ceil_pow2_u32` wraps to 0 on uint32, the shift loop stops at 0, and
`class_for_size` returns class 6 (a 64-byte block). -/
theorem class_for_size_overflow_miscassifies :
    class_for_size (2 ^ 31 + 1) = 6 ∧
    (6 : Nat) ≠ VALUE_CLASS_BUMP ∧
    2 ^ SLAB_MAX_SHIFT < 2 ^ 31 + 1 :=
  ⟨by decide, by decide, by decide⟩

/-- idx_for at a power-of-two capacity is reduction mod the capacity. -/
theorem idx_for_pow2 (h m : Nat) : idx_for h (2 ^ m) = h % 2 ^ m :=
  Nat.and_pow_two_sub_one_eq_mod h m

/-- The linear-probe step at a power-of-two capacity is +1 mod capacity. -/
theorem probe_step_pow2 (idx m : Nat) : (idx + 1) &&& (2 ^ m - 1) = (idx + 1) % 2 ^ m :=
  Nat.and_pow_two_sub_one_eq_mod _ m

theorem getD_set_self {α : Type} (l : List α) (i : Nat) (v d : α) (h : i < l.length) :
    (l.set i v).getD i d = v := by
  simp [List.getD_eq_getElem?_getD, List.getElem?_set_self h]

theorem getD_set_ne {α : Type} (l : List α) (i j : Nat) (v d : α) (h : i ≠ j) :
    (l.set i v).getD j d = l.getD j d := by
  simp [List.getD_eq_getElem?_getD, List.getElem?_set_ne h]

/-- From any start index below `c` there is an offset below `c` reaching any
target index below `c` modulo `c`. -/
theorem exists_offset_mod {c idx j : Nat} (hidx : idx < c) (hj : j < c) :
    ∃ t, t < c ∧ (idx + t) % c = j := by
  by_cases hle : idx ≤ j
  · exact ⟨j - idx, by omega, by rw [show idx + (j - idx) = j by omega, Nat.mod_eq_of_lt hj]⟩
  · refine ⟨c + j - idx, by omega, ?_⟩
    rw [show idx + (c + j - idx) = c + j by omega, Nat.add_mod_left, Nat.mod_eq_of_lt hj]

/-- The shared get/delete probe loop terminates within the given fuel as
soon as some probe offset below the fuel lands on an empty slot or on a
key match. -/
theorem search_go_isSome (tab : List Slot) (entries : List Entry) (key : List Nat)
    (m : Nat) :
    ∀ fuel idx, idx < 2 ^ m →
      (∃ t, t < fuel ∧ (tab.getD ((idx + t) % 2 ^ m) Slot.empty = Slot.empty ∨
        ∃ e, tab.getD ((idx + t) % 2 ^ m) Slot.empty = Slot.live e ∧
          key_eq (entries.getD e default) key = true)) →
      (search_go tab entries key (2 ^ m) idx fuel).isSome = true := by
  intro fuel
  induction fuel with
  | zero => rintro idx _ ⟨t, ht, _⟩; omega
  | succ f ih =>
    rintro idx hidx ⟨t, ht, hstop⟩
    rw [search_go]
    cases hslot : tab.getD idx Slot.empty with
    | empty => rfl
    | live e =>
      show (if key_eq (entries.getD e default) key = true then some (some (idx, e))
            else search_go tab entries key (2 ^ m) ((idx + 1) &&& (2 ^ m - 1)) f).isSome = true
      by_cases hk : key_eq (entries.getD e default) key = true
      · rw [if_pos hk]; rfl
      · have ht0 : t ≠ 0 := by
          rintro rfl
          rw [Nat.add_zero, Nat.mod_eq_of_lt hidx, hslot] at hstop
          rcases hstop with h | ⟨e', he', hke'⟩
          · exact Slot.noConfusion h
          · cases he'; exact hk hke'
        rw [if_neg hk, probe_step_pow2]
        refine ih ((idx + 1) % 2 ^ m) (Nat.mod_lt _ (Nat.pos_pow_of_pos m (by omega))) ?_
        refine ⟨t - 1, by omega, ?_⟩
        rwa [Nat.mod_add_mod, show idx + 1 + (t - 1) = idx + t by omega]
    | tomb =>
      show (search_go tab entries key (2 ^ m) ((idx + 1) &&& (2 ^ m - 1)) f).isSome = true
      have ht0 : t ≠ 0 := by
        rintro rfl
        rw [Nat.add_zero, Nat.mod_eq_of_lt hidx, hslot] at hstop
        rcases hstop with h | ⟨e', he', _⟩
        · exact Slot.noConfusion h
        · exact Slot.noConfusion he'
      rw [probe_step_pow2]
      refine ih ((idx + 1) % 2 ^ m) (Nat.mod_lt _ (Nat.pos_pow_of_pos m (by omega))) ?_
      refine ⟨t - 1, by omega, ?_⟩
      rwa [Nat.mod_add_mod, show idx + 1 + (t - 1) = idx + t by omega]

/-- Anything the get/delete probe loop reports as a match really is the
slot content and really matches the key. -/
theorem search_go_match (tab : List Slot) (entries : List Entry) (key : List Nat)
    (cap : Nat) :
    ∀ fuel idx i e, search_go tab entries key cap idx fuel = some (some (i, e)) →
      tab.getD i Slot.empty = Slot.live e ∧ key_eq (entries.getD e default) key = true := by
  intro fuel
  induction fuel with
  | zero => intro idx i e h; exact Option.noConfusion h
  | succ f ih =>
    intro idx i e h
    rw [search_go] at h
    cases hslot : tab.getD idx Slot.empty with
    | empty =>
      rw [hslot] at h
      simp only [Option.some.injEq] at h
      exact Option.noConfusion h
    | tomb =>
      rw [hslot] at h
      exact ih _ i e h
    | live e' =>
      rw [hslot] at h
      by_cases hk : key_eq (entries.getD e' default) key = true
      · replace h : some (some (idx, e')) = some (some (i, e)) := by
          rw [← h]
          show some (some (idx, e')) =
            (if key_eq (entries.getD e' default) key = true then some (some (idx, e'))
             else search_go tab entries key cap ((idx + 1) &&& (cap - 1)) f)
          rw [if_pos hk]
        simp only [Option.some.injEq, Prod.mk.injEq] at h
        obtain ⟨h1, h2⟩ := h
        subst h1; subst h2
        exact ⟨hslot, hk⟩
      · replace h : search_go tab entries key cap ((idx + 1) &&& (cap - 1)) f
            = some (some (i, e)) := by
          rw [← h]
          show search_go tab entries key cap ((idx + 1) &&& (cap - 1)) f =
            (if key_eq (entries.getD e' default) key = true then some (some (idx, e'))
             else search_go tab entries key cap ((idx + 1) &&& (cap - 1)) f)
          rw [if_neg hk]
        exact ih _ i e h

/-- A migration batch never touches the entry pool, the arena, the free
lists or the hit/miss counters. -/
theorem migrate_batch_preserves (s s' : Shard) (now : Nat)
    (h : shard_migrate_batch s now = some s') :
    s'.entries = s.entries ∧ s'.hits = s.hits ∧ s'.misses = s.misses ∧
    s'.pool_pos = s.pool_pos ∧ s'.pool_size = s.pool_size ∧ s'.freelist = s.freelist := by
  cases hnt : s.new_tab with
  | none =>
    simp only [shard_migrate_batch, hnt, Option.some.injEq] at h
    cases h
    exact ⟨rfl, rfl, rfl, rfl, rfl, rfl⟩
  | some nt =>
    simp only [shard_migrate_batch, hnt] at h
    cases hmg : migrate_go s.tab s.entries now s.new_cap s.cap s.migrate_pos 0 nt s.new_used s.cap with
    | none => simp only [hmg] at h; exact Option.noConfusion h
    | some res =>
      obtain ⟨pos', nt', nused'⟩ := res
      simp only [hmg] at h
      by_cases hge : pos' ≥ s.cap
      · rw [if_pos hge] at h
        cases h
        exact ⟨rfl, rfl, rfl, rfl, rfl, rfl⟩
      · rw [if_neg hge] at h
        cases h
        exact ⟨rfl, rfl, rfl, rfl, rfl, rfl⟩

/-- A match reported by the bounded incoming-table search is a real,
key-matching live slot. -/
theorem search_new_tab_match (nt : List Slot) (entries : List Entry) (key : List Nat)
    (cap h i e : Nat) (hs : search_new_tab nt entries key cap h = some (i, e)) :
    nt.getD i Slot.empty = Slot.live e ∧ key_eq (entries.getD e default) key = true := by
  unfold search_new_tab at hs
  cases hg : search_go nt entries key cap (idx_for h cap) cap with
  | none => rw [hg] at hs; exact Option.noConfusion hs
  | some res =>
    cases res with
    | none => rw [hg] at hs; exact Option.noConfusion hs
    | some p =>
      rw [hg] at hs
      obtain ⟨i', e'⟩ := p
      cases hs
      exact search_go_match nt entries key cap _ _ i e hg

/-- A key match against a nonempty key pins the entry index inside the
entry list (out-of-range indices read the default entry, whose key is
empty). -/
theorem key_eq_getD_lt (entries : List Entry) (key : List Nat) (e : Nat)
    (hk : key_eq (entries.getD e default) key = true) (hne : key ≠ []) :
    e < entries.length := by
  by_contra hge
  push_neg at hge
  rw [List.getD_eq_default _ _ hge] at hk
  have : ([] : List Nat) = key := by
    have := hk
    unfold key_eq at this
    exact eq_of_beq this
  exact hne this.symm

/-- The hit tail of get_into_internal satisfies the C10 outcome spec. -/
theorem get_hit_outcome (s1 : Shard) (key : List Nat) (dst_cap now e : Nat)
    (hk : key_eq (s1.entries.getD e default) key = true)
    (hg : good_entry s1.entries e now = true)
    (hne : key ≠ []) :
    get_outcome_spec s1.entries s1.hits s1.misses key dst_cap now
      (get_hit s1 e dst_cap).1 (get_hit s1 e dst_cap).2 := by
  have helt : e < s1.entries.length := key_eq_getD_lt _ _ _ hk hne
  simp only [get_hit]
  by_cases hlen : (s1.entries.getD e default).value.length > dst_cap
  · rw [if_pos hlen]
    refine ⟨rfl, by show s1.hits + 1 + s1.misses = s1.hits + s1.misses + 1; omega,
      fun hcon => GetRes.noConfusion hcon, ?_, ?_⟩
    · intro _
      exact ⟨rfl, rfl, e, helt, hk, hg, Or.inl ⟨_, rfl, rfl, hlen⟩⟩
    · intro hall
      exact absurd hg (by rw [hall e helt hk]; exact Bool.noConfusion)
  · rw [if_neg hlen]
    refine ⟨rfl, by show s1.hits + 1 + s1.misses = s1.hits + s1.misses + 1; omega,
      fun hcon => GetRes.noConfusion hcon, ?_, ?_⟩
    · intro _
      exact ⟨rfl, rfl, e, helt, hk, hg, Or.inr ⟨rfl, by omega⟩⟩
    · intro hall
      exact absurd hg (by rw [hall e helt hk]; exact Bool.noConfusion)

/-- The miss tail of get_into_internal satisfies the C10 outcome spec. -/
theorem get_miss_outcome (s1 : Shard) (key : List Nat) (dst_cap now : Nat) :
    get_outcome_spec s1.entries s1.hits s1.misses key dst_cap now
      GetRes.notfound { s1 with misses := s1.misses + 1 } := by
  refine ⟨rfl, by show s1.hits + (s1.misses + 1) = s1.hits + s1.misses + 1; omega,
    fun _ => ⟨rfl, rfl⟩, fun hcon => absurd rfl hcon, fun _ => rfl⟩

/-- The current-table probe of get/delete terminates whenever the table
contains an empty slot (power-of-two capacity). -/
theorem old_search_isSome (s1 : Shard) (key : List Nat) (m : Nat)
    (hcap : s1.cap = 2 ^ m) (hlen : s1.tab.length = s1.cap) (hemp : Slot.empty ∈ s1.tab) :
    (search_go s1.tab s1.entries key s1.cap (idx_for (fnv1a64 key) s1.cap) s1.cap).isSome
      = true := by
  obtain ⟨j, hj, hjE⟩ := List.mem_iff_getElem.mp hemp
  rw [hcap, idx_for_pow2]
  have hstart : fnv1a64 key % 2 ^ m < 2 ^ m := Nat.mod_lt _ (Nat.pos_pow_of_pos m (by omega))
  have hjlt : j < 2 ^ m := by rw [hlen, hcap] at hj; exact hj
  obtain ⟨t, htlt, hteq⟩ := exists_offset_mod hstart hjlt
  refine search_go_isSome _ _ _ m _ _ hstart ⟨t, htlt, Or.inl ?_⟩
  rw [hteq, List.getD_eq_getElem?_getD, List.getElem?_eq_getElem hj, Option.getD_some]
  exact hjE

/-- Shared outcome analysis of get_into_internal (used by the C5 and C10
theorems): the call terminates and satisfies the outcome spec whenever the
post-batch current table has an empty slot and a power-of-two capacity. -/
theorem get_into_outcome_aux
    (s s1 : Shard) (key : List Nat) (dst_cap now m : Nat)
    (hb : shard_migrate_batch s now = some s1)
    (hcap : s1.cap = 2 ^ m)
    (hlen : s1.tab.length = s1.cap)
    (hemp : Slot.empty ∈ s1.tab)
    (hne : key ≠ []) :
    ∃ r s', get_into_internal s key dst_cap now = some (r, s') ∧
      get_outcome_spec s.entries s.hits s.misses key dst_cap now r s' := by
  obtain ⟨pe, ph, pm, _, _, _⟩ := migrate_batch_preserves s s1 now hb
  rw [← pe, ← ph, ← pm]
  obtain ⟨res, hres⟩ := Option.isSome_iff_exists.mp (old_search_isSome s1 key m hcap hlen hemp)
  simp only [get_into_internal, hb]
  cases hnew : s1.new_tab with
  | none =>
    simp only [hres]
    cases res with
    | none => exact ⟨_, _, rfl, get_miss_outcome s1 key dst_cap now⟩
    | some p =>
      obtain ⟨i, e⟩ := p
      obtain ⟨hsl, hke⟩ := search_go_match _ _ _ _ _ _ _ _ hres
      by_cases hg : good_entry s1.entries e now = true
      · simp only [if_pos hg]
        exact ⟨_, _, rfl, get_hit_outcome s1 key dst_cap now e hke hg hne⟩
      · simp only [if_neg hg]
        exact ⟨_, _, rfl, get_miss_outcome s1 key dst_cap now⟩
  | some nt =>
    cases hsn : search_new_tab nt s1.entries key s1.new_cap (fnv1a64 key) with
    | some p =>
      obtain ⟨i, e⟩ := p
      obtain ⟨hsl, hke⟩ := search_new_tab_match nt s1.entries key s1.new_cap _ i e hsn
      by_cases hg : good_entry s1.entries e now = true
      · simp only [hsn, if_pos hg]
        exact ⟨_, _, rfl, get_hit_outcome s1 key dst_cap now e hke hg hne⟩
      · simp only [hsn, if_neg hg, hres]
        cases res with
        | none => exact ⟨_, _, rfl, get_miss_outcome s1 key dst_cap now⟩
        | some p2 =>
          obtain ⟨i2, e2⟩ := p2
          obtain ⟨hsl2, hke2⟩ := search_go_match _ _ _ _ _ _ _ _ hres
          by_cases hg2 : good_entry s1.entries e2 now = true
          · simp only [if_pos hg2]
            exact ⟨_, _, rfl, get_hit_outcome s1 key dst_cap now e2 hke2 hg2 hne⟩
          · simp only [if_neg hg2]
            exact ⟨_, _, rfl, get_miss_outcome s1 key dst_cap now⟩
    | none =>
      simp only [hsn, hres]
      cases res with
      | none => exact ⟨_, _, rfl, get_miss_outcome s1 key dst_cap now⟩
      | some p2 =>
        obtain ⟨i2, e2⟩ := p2
        obtain ⟨hsl2, hke2⟩ := search_go_match _ _ _ _ _ _ _ _ hres
        by_cases hg2 : good_entry s1.entries e2 now = true
        · simp only [if_pos hg2]
          exact ⟨_, _, rfl, get_hit_outcome s1 key dst_cap now e2 hke2 hg2 hne⟩
        · simp only [if_neg hg2]
          exact ⟨_, _, rfl, get_miss_outcome s1 key dst_cap now⟩

/-- A matching entry that is deleted or expired is not a good entry. -/
theorem good_entry_false_of_bad (entries : List Entry) (e now : Nat)
    (h : (entries.getD e default).deleted = true ∨
         is_expired (entries.getD e default) now = true) :
    good_entry entries e now = false := by
  show (!(entries.getD e default).deleted && !is_expired (entries.getD e default) now) = false
  rcases h with h | h
  · rw [h]
    rfl
  · rw [h]
    simp

/-- C10. Every terminating get_into_internal call bumps exactly one of the
shard's hit/miss counters; TooSmall counts as a hit, reports the stored
length, carries no bytes back to the destination, and leaves the entry
pool unwritten; any hit is backed by a matching live, undeleted, unexpired
entry; and if every matching entry is deleted or expired the call is a
miss. Termination needs only that the (post-batch) current table has an
empty slot and a power-of-two capacity. -/
theorem get_into_hit_miss_discipline
    (s s1 : Shard) (key : List Nat) (dst_cap now m : Nat)
    (hb : shard_migrate_batch s now = some s1)
    (hcap : s1.cap = 2 ^ m)
    (hlen : s1.tab.length = s1.cap)
    (hemp : Slot.empty ∈ s1.tab)
    (hne : key ≠ []) :
    ∃ r s', get_into_internal s key dst_cap now = some (r, s') ∧
      get_outcome_spec s.entries s.hits s.misses key dst_cap now r s' :=
  get_into_outcome_aux s s1 key dst_cap now m hb hcap hlen hemp hne

/-- C5. A key whose stored entries are all expired (or deleted) at call
time behaves exactly like an absent key: get returns NotFound and counts a
miss, and delete returns NotFound leaving the (post-batch) shard state
untouched; neither surfaces the value or reports success. -/
theorem expired_or_deleted_not_surfaced
    (s s1 : Shard) (key : List Nat) (dst_cap now m : Nat)
    (hb : shard_migrate_batch s now = some s1)
    (hcap : s1.cap = 2 ^ m) (hlen : s1.tab.length = s1.cap) (hemp : Slot.empty ∈ s1.tab)
    (hne : key ≠ [])
    (hbad : ∀ i, i < s.entries.length → key_eq (s.entries.getD i default) key = true →
        (s.entries.getD i default).deleted = true ∨
        is_expired (s.entries.getD i default) now = true) :
    (∃ s', get_into_internal s key dst_cap now = some (GetRes.notfound, s') ∧
        s'.misses = s.misses + 1 ∧ s'.hits = s.hits) ∧
    delete_internal s key now = some (HINOTETSU_ERR_NOTFOUND, s1) := by
  obtain ⟨pe, ph, pm, _, _, _⟩ := migrate_batch_preserves s s1 now hb
  have hallbad : ∀ i, i < s.entries.length → key_eq (s.entries.getD i default) key = true →
      good_entry s.entries i now = false :=
    fun i hi hk => good_entry_false_of_bad _ _ _ (hbad i hi hk)
  have hgood1 : ∀ e, key_eq (s1.entries.getD e default) key = true →
      good_entry s1.entries e now = false := by
    intro e hk
    have helt := key_eq_getD_lt _ _ _ hk hne
    rw [pe] at hk helt ⊢
    exact hallbad e helt hk
  constructor
  · obtain ⟨r, s', heq, spec⟩ := get_into_outcome_aux s s1 key dst_cap now m hb hcap hlen hemp hne
    obtain ⟨_, _, hnf, _, hmiss⟩ := spec
    have hr : r = GetRes.notfound := hmiss hallbad
    subst hr
    exact ⟨s', heq, (hnf rfl).1, (hnf rfl).2⟩
  · obtain ⟨res, hres⟩ := Option.isSome_iff_exists.mp (old_search_isSome s1 key m hcap hlen hemp)
    have hold_tail : delete_search_old s1 key (fnv1a64 key) now
        = some (HINOTETSU_ERR_NOTFOUND, s1) := by
      simp only [delete_search_old, hres]
      cases res with
      | none => rfl
      | some p =>
        obtain ⟨i, e⟩ := p
        obtain ⟨_, hke⟩ := search_go_match _ _ _ _ _ _ _ _ hres
        have hgt : ¬(good_entry s1.entries e now = true) := by simp [hgood1 e hke]
        simp only [if_neg hgt]
    simp only [delete_internal, hb]
    cases hnew : s1.new_tab with
    | none => exact hold_tail
    | some nt =>
      cases hsn : search_new_tab nt s1.entries key s1.new_cap (fnv1a64 key) with
      | none => simp only [hsn]; exact hold_tail
      | some p =>
        obtain ⟨i, e⟩ := p
        obtain ⟨_, hke⟩ := search_new_tab_match nt s1.entries key s1.new_cap _ i e hsn
        have hgt : ¬(good_entry s1.entries e now = true) := by simp [hgood1 e hke]
        simp only [hsn, if_neg hgt]
        exact hold_tail

/-- Witness for C10 at a concrete shard: a 5-byte value read into a 3-byte
destination. -/
theorem get_into_hit_miss_discipline_witness :
    ∃ r s', get_into_internal get_witness_state [3] 3 100 = some (r, s') ∧
      get_outcome_spec get_witness_state.entries get_witness_state.hits
        get_witness_state.misses [3] 3 100 r s' :=
  get_into_hit_miss_discipline get_witness_state get_witness_state [3] 3 100 2
    rfl rfl rfl (by decide) (by decide)

/-- Witness for C5 at a concrete shard holding only an expired entry. -/
theorem expired_or_deleted_not_surfaced_witness :
    (∃ s', get_into_internal expired_witness_state [3] 8192 100
        = some (GetRes.notfound, s') ∧
        s'.misses = expired_witness_state.misses + 1 ∧
        s'.hits = expired_witness_state.hits) ∧
    delete_internal expired_witness_state [3] 100
      = some (HINOTETSU_ERR_NOTFOUND, expired_witness_state) :=
  expired_or_deleted_not_surfaced expired_witness_state expired_witness_state [3] 8192 100 2
    rfl rfl rfl (by decide) (by decide) (by decide)

/-- Characterisation of a successful pool_alloc. -/
theorem pool_alloc_some (s : Shard) (n p : Nat) (s' : Shard)
    (h : pool_alloc s n = some (p, s')) :
    p = s.pool_pos ∧ s' = { s with pool_pos := s.pool_pos + round8 n } := by
  unfold pool_alloc at h
  by_cases hg : s.pool_pos + round8 n > s.pool_size
  · rw [if_pos hg] at h; exact Option.noConfusion h
  · rw [if_neg hg] at h
    obtain ⟨h1, h2⟩ := Prod.mk.inj (Option.some.inj h)
    exact ⟨h1.symm, h2.symm⟩

/-- pool_alloc fails exactly when the rounded size does not fit. -/
theorem pool_alloc_none_iff (s : Shard) (n : Nat) :
    pool_alloc s n = none ↔ s.pool_pos + round8 n > s.pool_size := by
  unfold pool_alloc
  by_cases hg : s.pool_pos + round8 n > s.pool_size
  · rw [if_pos hg]; exact ⟨fun _ => hg, fun _ => rfl⟩
  · rw [if_neg hg]
    exact ⟨fun h => Option.noConfusion h, fun h => absurd h hg⟩

/-- slab_refill only ever advances the arena. -/
theorem slab_refill_pool_mono (s : Shard) (shift : Nat) :
    s.pool_pos ≤ (slab_refill s shift).pool_pos := by
  simp only [slab_refill]
  cases hpa : pool_alloc s (round8 (if SLAB_PAGE_SIZE < class_size shift * 8
      then class_size shift * 8 else SLAB_PAGE_SIZE)) with
  | none => exact Nat.le_refl _
  | some q =>
    obtain ⟨p, s'⟩ := q
    obtain ⟨-, rfl⟩ := pool_alloc_some _ _ _ _ hpa
    exact Nat.le_add_right _ _

/-- value_alloc only ever advances the arena. -/
theorem value_alloc_pool_mono (s : Shard) (n : Nat) (s' : Shard) (c : Nat)
    (h : value_alloc s n = some (s', c)) : s.pool_pos ≤ s'.pool_pos := by
  unfold value_alloc at h
  by_cases hb : class_for_size n = VALUE_CLASS_BUMP
  · rw [if_pos hb] at h
    cases hpa : pool_alloc s n with
    | none => rw [hpa] at h; exact Option.noConfusion h
    | some q =>
      obtain ⟨p, s1⟩ := q
      simp only [hpa] at h
      obtain ⟨h1, -⟩ := Prod.mk.inj (Option.some.inj h)
      obtain ⟨-, rfl⟩ := pool_alloc_some _ _ _ _ hpa
      rw [← h1]
      exact Nat.le_add_right _ _
  · rw [if_neg hb] at h
    set s1 := if s.freelist.getD (class_for_size n) 0 = 0
        then slab_refill s (class_for_size n) else s with hs1
    have hmono : s.pool_pos ≤ s1.pool_pos := by
      rw [hs1]
      split
      · exact slab_refill_pool_mono s _
      · exact Nat.le_refl _
    by_cases hz : s1.freelist.getD (class_for_size n) 0 = 0
    · rw [if_pos hz] at h; exact Option.noConfusion h
    · rw [if_neg hz] at h
      obtain ⟨h1, -⟩ := Prod.mk.inj (Option.some.inj h)
      rw [← h1]
      exact hmono

/-- A failed entry_create_in_pool changes nothing but the arena offset,
which it may leave advanced by the partial allocations. -/
theorem entry_create_fail_pool_only (s s2 : Shard) (key value : List Nat) (ttl now : Nat)
    (h : entry_create_in_pool s key value ttl now = (s2, none)) :
    s2 = { s with pool_pos := s2.pool_pos } ∧ s.pool_pos ≤ s2.pool_pos := by
  simp only [entry_create_in_pool] at h
  cases hpa : pool_alloc s ENTRY_SIZE with
  | none =>
    simp only [hpa] at h
    obtain ⟨h1, -⟩ := Prod.mk.inj h
    subst h1
    exact ⟨rfl, Nat.le_refl _⟩
  | some q =>
    obtain ⟨p, s1⟩ := q
    simp only [hpa] at h
    obtain ⟨-, hs1⟩ := pool_alloc_some _ _ _ _ hpa
    cases hpb : pool_alloc s1 key.length with
    | none =>
      simp only [hpb] at h
      obtain ⟨h1, -⟩ := Prod.mk.inj h
      subst h1
      rw [hs1]
      exact ⟨rfl, Nat.le_add_right _ _⟩
    | some q2 =>
      obtain ⟨p2, s2a⟩ := q2
      simp only [hpb] at h
      obtain ⟨-, hs2a⟩ := pool_alloc_some _ _ _ _ hpb
      cases hva : value_alloc s2a value.length with
      | none =>
        simp only [hva] at h
        obtain ⟨h1, -⟩ := Prod.mk.inj h
        subst h1
        rw [hs2a, hs1]
        refine ⟨rfl, ?_⟩
        show s.pool_pos ≤ s.pool_pos + round8 ENTRY_SIZE + round8 key.length
        omega
      | some q3 =>
        obtain ⟨s3, vc⟩ := q3
        simp only [hva] at h
        obtain ⟨-, hcon⟩ := Prod.mk.inj h
        exact Option.noConfusion hcon

/-- The only OutOfMemory exit of the insert branch is a failed
entry_create_in_pool. -/
theorem set_insert_new_nomem (s1 : Shard) (key value : List Nat) (ttl now h : Nat)
    (s' : Shard)
    (hrun : set_insert_new s1 key value ttl now h = some (HINOTETSU_ERR_NOMEM, s')) :
    entry_create_in_pool s1 key value ttl now = (s', none) := by
  simp only [set_insert_new] at hrun
  cases hec : entry_create_in_pool s1 key value ttl now with
  | mk s2 oe =>
    cases oe with
    | none =>
      simp only [hec] at hrun
      obtain ⟨-, h2⟩ := Prod.mk.inj (Option.some.inj hrun)
      rw [h2]
    | some eidx =>
      simp only [hec] at hrun
      cases hfi : find_insert_slot (s2.new_tab.getD s2.tab) s2.entries key
          (if s2.new_tab.isSome then s2.new_cap else s2.cap) h with
      | none => simp only [hfi] at hrun; exact Option.noConfusion hrun
      | some q =>
        obtain ⟨idx, fnd⟩ := q
        simp only [hfi] at hrun
        cases hsl : (s2.new_tab.getD s2.tab).getD idx Slot.empty with
        | empty =>
          simp only [hsl] at hrun
          obtain ⟨hc, -⟩ := Prod.mk.inj (Option.some.inj hrun)
          exact absurd hc (by decide)
        | tomb =>
          simp only [hsl] at hrun
          obtain ⟨hc, -⟩ := Prod.mk.inj (Option.some.inj hrun)
          exact absurd hc (by decide)
        | live e =>
          simp only [hsl] at hrun
          obtain ⟨hc, -⟩ := Prod.mk.inj (Option.some.inj hrun)
          exact absurd hc (by decide)

/-- C6 amended. A set that fails with OutOfMemory while no rehash is in
progress and without triggering one leaves the whole shard unchanged —
mapping, tables, live and occupied counts, counters, free lists — except
for the arena offset, which may have advanced (partial allocations are not
rolled back) but never decreases. -/
theorem oom_failed_set_preserves_all_but_arena
    (icap : Nat) (s s' : Shard) (key value : List Nat) (ttl now : Nat)
    (hquiet : s.new_tab = none)
    (hnotrig : s.used + 1 ≤ s.cap * 7 / 10)
    (hrun : set_internal icap s key value ttl now = some (HINOTETSU_ERR_NOMEM, s')) :
    s' = { s with pool_pos := s'.pool_pos } ∧ s.pool_pos ≤ s'.pool_pos := by
  have hmg : shard_maybe_grow icap s now = some s := by
    simp only [shard_maybe_grow, hquiet]
    rw [if_neg (by omega)]
  simp only [set_internal, hmg, hquiet] at hrun
  cases hfi : find_insert_slot s.tab s.entries key s.cap (fnv1a64 key) with
  | none => simp only [hfi] at hrun; exact Option.noConfusion hrun
  | some q =>
    obtain ⟨idx_old, found_old⟩ := q
    simp only [hfi] at hrun
    cases found_old with
    | true =>
      simp only [if_pos rfl] at hrun
      cases hsl : s.tab.getD idx_old Slot.empty with
      | live e =>
        simp only [hsl] at hrun
        simp only [set_exist_update] at hrun
        cases hva : value_alloc s value.length with
        | none =>
          simp only [hva] at hrun
          obtain ⟨-, h2⟩ := Prod.mk.inj (Option.some.inj hrun)
          subst h2
          exact ⟨rfl, Nat.le_refl _⟩
        | some q2 =>
          obtain ⟨s1, nc⟩ := q2
          simp only [hva] at hrun
          obtain ⟨hc, -⟩ := Prod.mk.inj (Option.some.inj hrun)
          exact absurd hc (by decide)
      | empty =>
        simp only [hsl] at hrun
        obtain ⟨he, hmono⟩ := entry_create_fail_pool_only s s' key value ttl now
          (set_insert_new_nomem s key value ttl now (fnv1a64 key) s' hrun)
        exact ⟨he, hmono⟩
      | tomb =>
        simp only [hsl] at hrun
        obtain ⟨he, hmono⟩ := entry_create_fail_pool_only s s' key value ttl now
          (set_insert_new_nomem s key value ttl now (fnv1a64 key) s' hrun)
        exact ⟨he, hmono⟩
    | false =>
      simp only [Bool.false_eq_true, if_neg] at hrun
      obtain ⟨he, hmono⟩ := entry_create_fail_pool_only s s' key value ttl now
        (set_insert_new_nomem s key value ttl now (fnv1a64 key) s' hrun)
      exact ⟨he, hmono⟩

/-- Witness for the amended C6 at a concrete quiet shard: the Entry struct
fits but the key copy does not, so the set fails with OutOfMemory and only
the arena offset moved (from 32 to 64). -/
theorem oom_failed_set_preserves_all_but_arena_witness :
    ({ oom_quiet_state with pool_pos := 64 } : Shard)
        = { oom_quiet_state with pool_pos := ({ oom_quiet_state with pool_pos := 64 } : Shard).pool_pos }
      ∧ oom_quiet_state.pool_pos ≤ ({ oom_quiet_state with pool_pos := 64 } : Shard).pool_pos :=
  oom_failed_set_preserves_all_but_arena 16384 oom_quiet_state
    { oom_quiet_state with pool_pos := 64 } [7] [1, 2, 3] 0 100 rfl (by decide) (by decide)

/-- value_free never touches the arena. -/
theorem value_free_pool (s : Shard) (c : Nat) : (value_free s c).pool_pos = s.pool_pos := by
  unfold value_free slab_push
  split <;> rfl

/-- The overwrite branch of set only ever advances the arena. -/
theorem set_exist_update_pool_mono (s : Shard) (eidx : Nat) (value : List Nat)
    (ttl now rc : Nat) (s' : Shard)
    (h : set_exist_update s eidx value ttl now = some (rc, s')) :
    s.pool_pos ≤ s'.pool_pos := by
  simp only [set_exist_update] at h
  cases hva : value_alloc s value.length with
  | none =>
    simp only [hva] at h
    obtain ⟨-, h2⟩ := Prod.mk.inj (Option.some.inj h)
    subst h2
    exact Nat.le_refl _
  | some q =>
    obtain ⟨s1, nc⟩ := q
    simp only [hva] at h
    obtain ⟨-, h2⟩ := Prod.mk.inj (Option.some.inj h)
    subst h2
    show s.pool_pos ≤ (value_free s1 (s1.entries.getD eidx default).vclass).pool_pos
    rw [value_free_pool]
    exact value_alloc_pool_mono s _ s1 nc hva

/-- entry_create_in_pool only ever advances the arena. -/
theorem entry_create_pool_mono (s : Shard) (key value : List Nat) (ttl now : Nat)
    (s2 : Shard) (oe : Option Nat)
    (h : entry_create_in_pool s key value ttl now = (s2, oe)) :
    s.pool_pos ≤ s2.pool_pos := by
  cases oe with
  | none => exact (entry_create_fail_pool_only s s2 key value ttl now h).2
  | some eidx =>
    simp only [entry_create_in_pool] at h
    cases hpa : pool_alloc s ENTRY_SIZE with
    | none =>
      simp only [hpa] at h
      obtain ⟨-, hc⟩ := Prod.mk.inj h
      exact Option.noConfusion hc
    | some q =>
      obtain ⟨p, s1⟩ := q
      simp only [hpa] at h
      obtain ⟨-, hs1⟩ := pool_alloc_some _ _ _ _ hpa
      cases hpb : pool_alloc s1 key.length with
      | none =>
        simp only [hpb] at h
        obtain ⟨-, hc⟩ := Prod.mk.inj h
        exact Option.noConfusion hc
      | some q2 =>
        obtain ⟨p2, s2a⟩ := q2
        simp only [hpb] at h
        obtain ⟨-, hs2a⟩ := pool_alloc_some _ _ _ _ hpb
        cases hva : value_alloc s2a value.length with
        | none =>
          simp only [hva] at h
          obtain ⟨-, hc⟩ := Prod.mk.inj h
          exact Option.noConfusion hc
        | some q3 =>
          obtain ⟨s3, vc⟩ := q3
          simp only [hva] at h
          obtain ⟨h1, -⟩ := Prod.mk.inj h
          subst h1
          show s.pool_pos ≤ s3.pool_pos
          have m3 := value_alloc_pool_mono s2a _ s3 vc hva
          rw [hs2a, hs1] at m3
      
      
          revert m3
          show s.pool_pos + round8 ENTRY_SIZE + round8 key.length ≤ s3.pool_pos →
            s.pool_pos ≤ s3.pool_pos
          omega

/-- The fresh-insert branch of set only ever advances the arena. -/
theorem set_insert_new_pool_mono (s1 : Shard) (key value : List Nat) (ttl now h rc : Nat)
    (s' : Shard)
    (hrun : set_insert_new s1 key value ttl now h = some (rc, s')) :
    s1.pool_pos ≤ s'.pool_pos := by
  simp only [set_insert_new] at hrun
  cases hec : entry_create_in_pool s1 key value ttl now with
  | mk s2 oe =>
    have hm := entry_create_pool_mono s1 key value ttl now s2 oe hec
    cases oe with
    | none =>
      simp only [hec] at hrun
      obtain ⟨-, h2⟩ := Prod.mk.inj (Option.some.inj hrun)
      subst h2
      exact hm
    | some eidx =>
      simp only [hec] at hrun
      cases hfi : find_insert_slot (s2.new_tab.getD s2.tab) s2.entries key
          (if s2.new_tab.isSome then s2.new_cap else s2.cap) h with
      | none => simp only [hfi] at hrun; exact Option.noConfusion hrun
      | some q =>
        obtain ⟨idx, fnd⟩ := q
        simp only [hfi] at hrun
        cases hsl : (s2.new_tab.getD s2.tab).getD idx Slot.empty with
        | empty =>
          simp only [hsl] at hrun
          obtain ⟨-, h2⟩ := Prod.mk.inj (Option.some.inj hrun)
          subst h2
          by_cases hns : s2.new_tab.isSome = true <;> simp only [hns, if_pos, if_neg] <;>
            exact hm
        | tomb =>
          simp only [hsl] at hrun
          obtain ⟨-, h2⟩ := Prod.mk.inj (Option.some.inj hrun)
          subst h2
          by_cases hns : s2.new_tab.isSome = true <;> simp only [hns, if_pos, if_neg] <;>
            exact hm
        | live e =>
          simp only [hsl] at hrun
          obtain ⟨-, h2⟩ := Prod.mk.inj (Option.some.inj hrun)
          subst h2
          exact hm

/-- Starting a resize does not touch the arena. -/
theorem start_resize_pool (icap : Nat) (s : Shard) :
    (shard_start_resize icap s).pool_pos = s.pool_pos := by
  unfold shard_start_resize
  cases s.new_tab <;> rfl

/-- shard_maybe_grow never touches the arena. -/
theorem maybe_grow_pool (icap : Nat) (s s1 : Shard) (now : Nat)
    (h : shard_maybe_grow icap s now = some s1) : s1.pool_pos = s.pool_pos := by
  unfold shard_maybe_grow at h
  cases hnt : s.new_tab with
  | some nt =>
    rw [hnt] at h
    exact (migrate_batch_preserves s s1 now h).2.2.2.1
  | none =>
    rw [hnt] at h
    by_cases htr : s.used + 1 > s.cap * 7 / 10
    · rw [if_pos htr] at h
      rw [(migrate_batch_preserves _ s1 now h).2.2.2.1, start_resize_pool]
    · rw [if_neg htr] at h
      cases h
      rfl

/-- set_internal never decreases the arena offset. -/
theorem set_internal_pool_mono (icap : Nat) (s : Shard) (key value : List Nat)
    (ttl now rc : Nat) (s' : Shard)
    (hrun : set_internal icap s key value ttl now = some (rc, s')) :
    s.pool_pos ≤ s'.pool_pos := by
  simp only [set_internal] at hrun
  cases hmg : shard_maybe_grow icap s now with
  | none => rw [hmg] at hrun; exact Option.noConfusion hrun
  | some s1 =>
    simp only [hmg] at hrun
    have hpe : s1.pool_pos = s.pool_pos := maybe_grow_pool icap s s1 now hmg
    rw [← hpe]
    cases hnt : s1.new_tab with
    | some nt =>
      simp only [hnt] at hrun
      cases hfn : find_insert_slot nt s1.entries key s1.new_cap (fnv1a64 key) with
      | none => simp only [hfn] at hrun; exact Option.noConfusion hrun
      | some qn =>
        obtain ⟨idx_new, found_new⟩ := qn
        simp only [hfn] at hrun
        cases hfo : find_insert_slot s1.tab s1.entries key s1.cap (fnv1a64 key) with
        | none => simp only [hfo] at hrun; exact Option.noConfusion hrun
        | some qo =>
          obtain ⟨idx_old, found_old⟩ := qo
          simp only [hfo] at hrun
          cases found_new with
          | true =>
            simp only [if_pos rfl] at hrun
            cases hsl : nt.getD idx_new Slot.empty with
            | live e =>
              simp only [hsl] at hrun
              exact set_exist_update_pool_mono s1 e value ttl now rc s' hrun
            | empty =>
              simp only [hsl] at hrun
              exact set_insert_new_pool_mono s1 key value ttl now _ rc s' hrun
            | tomb =>
              simp only [hsl] at hrun
              exact set_insert_new_pool_mono s1 key value ttl now _ rc s' hrun
          | false =>
            simp only [Bool.false_eq_true, if_neg] at hrun
            cases found_old with
            | true =>
              simp only [if_pos rfl] at hrun
              cases hsl : s1.tab.getD idx_old Slot.empty with
              | live e =>
                simp only [hsl] at hrun
                exact set_exist_update_pool_mono s1 e value ttl now rc s' hrun
              | empty =>
                simp only [hsl] at hrun
                exact set_insert_new_pool_mono s1 key value ttl now _ rc s' hrun
              | tomb =>
                simp only [hsl] at hrun
                exact set_insert_new_pool_mono s1 key value ttl now _ rc s' hrun
            | false =>
              simp only [Bool.false_eq_true, if_neg] at hrun
              exact set_insert_new_pool_mono s1 key value ttl now _ rc s' hrun
    | none =>
      simp only [hnt] at hrun
      cases hfo : find_insert_slot s1.tab s1.entries key s1.cap (fnv1a64 key) with
      | none => simp only [hfo] at hrun; exact Option.noConfusion hrun
      | some qo =>
        obtain ⟨idx_old, found_old⟩ := qo
        simp only [hfo] at hrun
        cases found_old with
        | true =>
          simp only [if_pos rfl] at hrun
          cases hsl : s1.tab.getD idx_old Slot.empty with
          | live e =>
            simp only [hsl] at hrun
            exact set_exist_update_pool_mono s1 e value ttl now rc s' hrun
          | empty =>
            simp only [hsl] at hrun
            exact set_insert_new_pool_mono s1 key value ttl now _ rc s' hrun
          | tomb =>
            simp only [hsl] at hrun
            exact set_insert_new_pool_mono s1 key value ttl now _ rc s' hrun
        | false =>
          simp only [Bool.false_eq_true, if_neg] at hrun
          exact set_insert_new_pool_mono s1 key value ttl now _ rc s' hrun

/-- The hit tail of get does not touch the arena. -/
theorem get_hit_pool (s : Shard) (e d : Nat) : (get_hit s e d).2.pool_pos = s.pool_pos := by
  simp only [get_hit]
  split <;> rfl

/-- get_into_internal never decreases the arena offset. -/
theorem get_into_pool_mono (s : Shard) (key : List Nat) (dst_cap now : Nat)
    (r : GetRes) (s' : Shard)
    (hrun : get_into_internal s key dst_cap now = some (r, s')) :
    s.pool_pos ≤ s'.pool_pos := by
  simp only [get_into_internal] at hrun
  cases hb : shard_migrate_batch s now with
  | none => rw [hb] at hrun; exact Option.noConfusion hrun
  | some s1 =>
    simp only [hb] at hrun
    have hpe : s1.pool_pos = s.pool_pos := (migrate_batch_preserves s s1 now hb).2.2.2.1
    rw [← hpe]
    cases hnt : s1.new_tab with
    | some nt =>
      simp only [hnt] at hrun
      cases hsn : search_new_tab nt s1.entries key s1.new_cap (fnv1a64 key) with
      | some p =>
        obtain ⟨i, e⟩ := p
        simp only [hsn] at hrun
        by_cases hg : good_entry s1.entries e now = true
        · simp only [if_pos hg] at hrun
          have h2 : (get_hit s1 e dst_cap).2 = s' := by rw [Option.some.inj hrun]
          rw [← h2, get_hit_pool]
        · simp only [if_neg hg] at hrun
          cases hres : search_go s1.tab s1.entries key s1.cap (idx_for (fnv1a64 key) s1.cap) s1.cap with
          | none => simp only [hres] at hrun; exact Option.noConfusion hrun
          | some res =>
            simp only [hres] at hrun
            cases res with
            | none =>
              obtain ⟨-, h2⟩ := Prod.mk.inj (Option.some.inj hrun)
              subst h2
              exact Nat.le_refl _
            | some p2 =>
              obtain ⟨i2, e2⟩ := p2
              by_cases hg2 : good_entry s1.entries e2 now = true
              · simp only [if_pos hg2] at hrun
                have h2 : (get_hit s1 e2 dst_cap).2 = s' := by rw [Option.some.inj hrun]
                rw [← h2, get_hit_pool]
              · simp only [if_neg hg2] at hrun
                obtain ⟨-, h2⟩ := Prod.mk.inj (Option.some.inj hrun)
                subst h2
                exact Nat.le_refl _
      | none =>
        simp only [hsn] at hrun
        cases hres : search_go s1.tab s1.entries key s1.cap (idx_for (fnv1a64 key) s1.cap) s1.cap with
        | none => simp only [hres] at hrun; exact Option.noConfusion hrun
        | some res =>
          simp only [hres] at hrun
          cases res with
          | none =>
            obtain ⟨-, h2⟩ := Prod.mk.inj (Option.some.inj hrun)
            subst h2
            exact Nat.le_refl _
          | some p2 =>
            obtain ⟨i2, e2⟩ := p2
            by_cases hg2 : good_entry s1.entries e2 now = true
            · simp only [if_pos hg2] at hrun
              have h2 : (get_hit s1 e2 dst_cap).2 = s' := by rw [Option.some.inj hrun]
              rw [← h2, get_hit_pool]
            · simp only [if_neg hg2] at hrun
              obtain ⟨-, h2⟩ := Prod.mk.inj (Option.some.inj hrun)
              subst h2
              exact Nat.le_refl _
    | none =>
      simp only [hnt] at hrun
      cases hres : search_go s1.tab s1.entries key s1.cap (idx_for (fnv1a64 key) s1.cap) s1.cap with
      | none => simp only [hres] at hrun; exact Option.noConfusion hrun
      | some res =>
        simp only [hres] at hrun
        cases res with
        | none =>
          obtain ⟨-, h2⟩ := Prod.mk.inj (Option.some.inj hrun)
          subst h2
          exact Nat.le_refl _
        | some p2 =>
          obtain ⟨i2, e2⟩ := p2
          by_cases hg2 : good_entry s1.entries e2 now = true
          · simp only [if_pos hg2] at hrun
            have h2 : (get_hit s1 e2 dst_cap).2 = s' := by rw [Option.some.inj hrun]
            rw [← h2, get_hit_pool]
          · simp only [if_neg hg2] at hrun
            obtain ⟨-, h2⟩ := Prod.mk.inj (Option.some.inj hrun)
            subst h2
            exact Nat.le_refl _

/-- delete_apply does not touch the arena. -/
theorem delete_apply_pool (s : Shard) (b : Bool) (i e : Nat) :
    (delete_apply s b i e).2.pool_pos = s.pool_pos := by
  cases b <;> exact value_free_pool s _

/-- delete_internal never decreases the arena offset. -/
theorem delete_pool_mono (s : Shard) (key : List Nat) (now rc : Nat) (s' : Shard)
    (hrun : delete_internal s key now = some (rc, s')) :
    s.pool_pos ≤ s'.pool_pos := by
  simp only [delete_internal] at hrun
  cases hb : shard_migrate_batch s now with
  | none => rw [hb] at hrun; exact Option.noConfusion hrun
  | some s1 =>
    simp only [hb] at hrun
    have hpe : s1.pool_pos = s.pool_pos := (migrate_batch_preserves s s1 now hb).2.2.2.1
    rw [← hpe]
    have htail : ∀ rc2 s2, delete_search_old s1 key (fnv1a64 key) now = some (rc2, s2) →
        s1.pool_pos ≤ s2.pool_pos := by
      intro rc2 s2 ht
      simp only [delete_search_old] at ht
      cases hres : search_go s1.tab s1.entries key s1.cap (idx_for (fnv1a64 key) s1.cap) s1.cap with
      | none => simp only [hres] at ht; exact Option.noConfusion ht
      | some res =>
        simp only [hres] at ht
        cases res with
        | none =>
          obtain ⟨-, h2⟩ := Prod.mk.inj (Option.some.inj ht)
          subst h2
          exact Nat.le_refl _
        | some p =>
          obtain ⟨i, e⟩ := p
          by_cases hg : good_entry s1.entries e now = true
          · simp only [if_pos hg] at ht
            have h2 : (delete_apply s1 false i e).2 = s2 := by rw [Option.some.inj ht]
            rw [← h2, delete_apply_pool]
          · simp only [if_neg hg] at ht
            obtain ⟨-, h2⟩ := Prod.mk.inj (Option.some.inj ht)
            subst h2
            exact Nat.le_refl _
    cases hnt : s1.new_tab with
    | none =>
      simp only [hnt] at hrun
      exact htail rc s' hrun
    | some nt =>
      simp only [hnt] at hrun
      cases hsn : search_new_tab nt s1.entries key s1.new_cap (fnv1a64 key) with
      | none =>
        simp only [hsn] at hrun
        exact htail rc s' hrun
      | some p =>
        obtain ⟨i, e⟩ := p
        simp only [hsn] at hrun
        by_cases hg : good_entry s1.entries e now = true
        · simp only [if_pos hg] at hrun
          have h2 : (delete_apply s1 true i e).2 = s' := by rw [Option.some.inj hrun]
          rw [← h2, delete_apply_pool]
        · simp only [if_neg hg] at hrun
          exact htail rc s' hrun

/-- round8 is the least multiple of 8 at or above its argument. -/
theorem round8_spec (n : Nat) : n ≤ round8 n ∧ round8 n < n + 8 ∧ round8 n % 8 = 0 := by
  unfold round8
  omega

/-- C7: pool_alloc rounds the request up to the least 8-byte multiple, hands out
the current offset and advances it by the rounded size; it fails, leaving the
shard unchanged, exactly when offset + round8(n) exceeds the region size (so it
uses the ROUNDED size in the bound check); and no set/get/delete ever decreases
the arena offset. -/
theorem pool_alloc_characterisation :
    (∀ n : Nat, n ≤ round8 n ∧ round8 n < n + 8 ∧ round8 n % 8 = 0) ∧
    (∀ (s : Shard) (n p : Nat) (s' : Shard), pool_alloc s n = some (p, s') →
        p = s.pool_pos ∧ s' = { s with pool_pos := s.pool_pos + round8 n }) ∧
    (∀ (s : Shard) (n : Nat), pool_alloc s n = none ↔ s.pool_pos + round8 n > s.pool_size) ∧
    (∀ (icap : Nat) (s : Shard) (key value : List Nat) (ttl now rc : Nat) (s' : Shard),
        set_internal icap s key value ttl now = some (rc, s') → s.pool_pos ≤ s'.pool_pos) ∧
    (∀ (s : Shard) (key : List Nat) (dst_cap now : Nat) (r : GetRes) (s' : Shard),
        get_into_internal s key dst_cap now = some (r, s') → s.pool_pos ≤ s'.pool_pos) ∧
    (∀ (s : Shard) (key : List Nat) (now rc : Nat) (s' : Shard),
        delete_internal s key now = some (rc, s') → s.pool_pos ≤ s'.pool_pos) :=
  ⟨round8_spec, pool_alloc_some, pool_alloc_none_iff,
   set_internal_pool_mono, get_into_pool_mono, delete_pool_mono⟩

theorem pool_alloc_characterisation_witness :
    (3 ≤ round8 3 ∧ round8 3 < 3 + 8 ∧ round8 3 % 8 = 0) ∧
    (32 = oom_quiet_state.pool_pos ∧
       { oom_quiet_state with pool_pos := 40 } =
         { oom_quiet_state with pool_pos := oom_quiet_state.pool_pos + round8 5 }) ∧
    (pool_alloc near_full_arena 3 = none ↔
       near_full_arena.pool_pos + round8 3 > near_full_arena.pool_size) ∧
    oom_quiet_state.pool_pos ≤ c7_set_final.pool_pos ∧
    c7_set_final.pool_pos ≤ c7_get_final.pool_pos ∧
    c7_set_final.pool_pos ≤ c7_del_final.pool_pos := by
  obtain ⟨h1, h2, h3, h4, h5, h6⟩ := pool_alloc_characterisation
  refine ⟨h1 3, ?_, h3 near_full_arena 3, ?_, ?_, ?_⟩
  · obtain ⟨hp, hs⟩ :=
      h2 oom_quiet_state 5 32 { oom_quiet_state with pool_pos := 40 } rfl
    exact ⟨hp, hs⟩
  · exact h4 4 oom_quiet_state [1] [2, 3] 0 0 c7_set_rc c7_set_final rfl
  · exact h5 c7_set_final [1] 8 0 c7_get_res c7_get_final rfl
  · exact h6 c7_set_final [1] 0 c7_del_rc c7_del_final rfl

/-- One or-shift step widens the window of source bits a smeared word sees. -/
theorem smear_window (m w w2 a : Nat) (hw2 : w2 = 2 * w)
    (ha : ∀ i, a.testBit i = true ↔ ∃ d, d < w ∧ m.testBit (i + d) = true) :
    ∀ i, (a ||| a >>> w).testBit i = true ↔ ∃ d, d < w2 ∧ m.testBit (i + d) = true := by
  subst hw2
  intro i
  rw [Nat.testBit_lor, Nat.testBit_shiftRight, Bool.or_eq_true, ha i, ha (w + i)]
  constructor
  · rintro (⟨d, hd, h⟩ | ⟨d, hd, h⟩)
    · exact ⟨d, by omega, h⟩
    · exact ⟨w + d, by omega, by rwa [show i + (w + d) = w + i + d by omega]⟩
  · rintro ⟨d, hd, h⟩
    by_cases hdw : d < w
    · exact Or.inl ⟨d, hdw, h⟩
    · exact Or.inr ⟨d - w, by omega, by rwa [show w + i + (d - w) = i + d by omega]⟩

/-- A bit of the fully smeared word is set iff some source bit at most 31
places above it is set. -/
theorem smear32_window (m : Nat) (i : Nat) :
    (smear32 m).testBit i = true ↔ ∃ d, d < 32 ∧ m.testBit (i + d) = true := by
  have h0 : ∀ j, m.testBit j = true ↔ ∃ d, d < 1 ∧ m.testBit (j + d) = true := by
    intro j
    constructor
    · intro h; exact ⟨0, by omega, by simpa using h⟩
    · rintro ⟨d, hd, h⟩
      have hd0 : d = 0 := by omega
      subst hd0
      simpa using h
  have h1 := smear_window m 1 2 m rfl h0
  have h2 := smear_window m 2 4 _ rfl h1
  have h3 := smear_window m 4 8 _ rfl h2
  have h4 := smear_window m 8 16 _ rfl h3
  have h5 := smear_window m 16 32 _ rfl h4
  exact h5 i

/-- The highest set bit of a positive number sits at its log2. -/
theorem testBit_log2_self (m : Nat) (h : m ≠ 0) : m.testBit m.log2 = true := by
  have h1 : 2 ^ m.log2 ≤ m := Nat.log2_self_le h
  have h2 : m < 2 ^ (m.log2 + 1) := Nat.lt_log2_self
  rw [Nat.testBit_to_div_mod]
  have hdiv : m / 2 ^ m.log2 = 1 := by
    refine Nat.div_eq_of_lt_le (by simpa using h1) ?_
    have : (1 + 1) * 2 ^ m.log2 = 2 ^ (m.log2 + 1) := by ring
    omega
  simp [hdiv]

/-- Below 2^31, the smear fills every bit up to and including the top set
bit, producing 2^(log2 m + 1) - 1. -/
theorem smear32_eq (m : Nat) (hm1 : 1 ≤ m) (hm2 : m < 2 ^ 31) :
    smear32 m = 2 ^ (m.log2 + 1) - 1 := by
  apply Nat.eq_of_testBit_eq
  intro i
  have hlt : m < 2 ^ (m.log2 + 1) := Nat.lt_log2_self
  rw [Nat.testBit_two_pow_sub_one]
  rcases Nat.lt_or_ge i (m.log2 + 1) with hi | hi
  · have htop : m.testBit m.log2 = true := testBit_log2_self m (by omega)
    have hbit : (smear32 m).testBit i = true := by
      rw [smear32_window]
      refine ⟨m.log2 - i, ?_, by rwa [show i + (m.log2 - i) = m.log2 by omega]⟩
      have hlog30 : m.log2 ≤ 30 := by
        by_contra hc
        push_neg at hc
        have : 2 ^ 31 ≤ 2 ^ m.log2 := Nat.pow_le_pow_right (by omega) (by omega)
        have h1 : 2 ^ m.log2 ≤ m := Nat.log2_self_le (by omega)
        omega
      omega
    rw [hbit]
    exact (decide_eq_true hi).symm
  · have hbit : ¬ (smear32 m).testBit i = true := by
      rw [smear32_window]
      rintro ⟨d, hd, hb⟩
      have hge : 2 ^ (i + d) ≤ m := Nat.testBit_implies_ge hb
      have hmono : 2 ^ (m.log2 + 1) ≤ 2 ^ (i + d) := Nat.pow_le_pow_right (by omega) (by omega)
      omega
    rw [Bool.eq_false_iff.mpr hbit]
    exact (decide_eq_false (by omega)).symm

/-- For 2 ≤ x ≤ 2^31 the uint32 round-up really is the next power of two:
2^(log2(x-1) + 1). -/
theorem ceil_pow2_u32_spec (x : Nat) (hx1 : 2 ≤ x) (hx2 : x ≤ 2 ^ 31) :
    ceil_pow2_u32 x = 2 ^ ((x - 1).log2 + 1) := by
  have hm1 : 1 ≤ x - 1 := by omega
  have hm2 : x - 1 < 2 ^ 31 := by omega
  have hlog30 : (x - 1).log2 ≤ 30 := by
    by_contra hc
    push_neg at hc
    have hle : 2 ^ (x - 1).log2 ≤ x - 1 := Nat.log2_self_le (by omega)
    have : 2 ^ 31 ≤ 2 ^ (x - 1).log2 := Nat.pow_le_pow_right (by omega) (by omega)
    omega
  unfold ceil_pow2_u32
  rw [if_neg (by omega : ¬ x ≤ 1)]
  show (smear32 (x - 1) + 1) % 2 ^ 32 = 2 ^ ((x - 1).log2 + 1)
  rw [smear32_eq (x - 1) hm1 hm2]
  have hpos : 1 ≤ 2 ^ ((x - 1).log2 + 1) := Nat.one_le_two_pow
  have hpow : 2 ^ ((x - 1).log2 + 1) ≤ 2 ^ 31 := Nat.pow_le_pow_right (by omega) (by omega)
  have h32 : (2 : Nat) ^ 31 < 2 ^ 32 := by norm_num
  rw [show 2 ^ ((x - 1).log2 + 1) - 1 + 1 = 2 ^ ((x - 1).log2 + 1) by omega]
  exact Nat.mod_eq_of_lt (by omega)

/-- The shift loop run with enough fuel computes the exponent of a power of
two. -/
theorem shift_loop_go (k : Nat) :
    ∀ fuel s, s ≤ k → k - s ≤ fuel → shift_loop (2 ^ k) fuel s = k := by
  intro fuel
  induction fuel with
  | zero =>
    intro s h1 h2
    have hs : s = k := by omega
    rw [hs]
    rfl
  | succ f ih =>
    intro s h1 h2
    rw [shift_loop]
    by_cases h : 2 ^ s < 2 ^ k
    · rw [if_pos h]
      have hsk : s < k := (Nat.pow_lt_pow_iff_right (by omega)).mp h
      exact ih (s + 1) (by omega) (by omega)
    · rw [if_neg h]
      have hks : ¬ s < k := by
        intro hc
        exact h (Nat.pow_lt_pow_right (by omega) hc)
      omega

/-- Characterisation of class_for_size below the uint32 wrap: it returns the
smallest admissible shift, escaping to BUMP above MAX_SHIFT. -/
theorem class_for_size_spec (n : Nat) (hn : n ≤ 2 ^ 31) :
    (class_for_size n = VALUE_CLASS_BUMP ↔ 2 ^ SLAB_MAX_SHIFT < n) ∧
    (2 ^ SLAB_MAX_SHIFT < n ∨
      (SLAB_MIN_SHIFT ≤ class_for_size n ∧ class_for_size n ≤ SLAB_MAX_SHIFT ∧
       n ≤ 2 ^ class_for_size n ∧
       ∀ j, SLAB_MIN_SHIFT ≤ j → n ≤ 2 ^ j → class_for_size n ≤ j)) := by
  rcases Nat.lt_or_ge n 2 with hn2 | hn2
  · have hred : class_for_size n = 6 := by
      have h01 : n = 0 ∨ n = 1 := by omega
      rcases h01 with h | h <;> rw [h] <;> rfl
    rw [hred]
    refine ⟨⟨fun h => absurd h (by decide), fun h => absurd h (by simp [SLAB_MAX_SHIFT]; omega)⟩, ?_⟩
    refine Or.inr ⟨by decide, by decide, by simp [SLAB_MIN_SHIFT]; omega, fun j hj _ => hj⟩
  · -- 2 ≤ n
    have hK := ceil_pow2_u32_spec n hn2 hn
    have hlog30 : (n - 1).log2 ≤ 30 := by
      by_contra hc
      push_neg at hc
      have hle : 2 ^ (n - 1).log2 ≤ n - 1 := Nat.log2_self_le (by omega)
      have : 2 ^ 31 ≤ 2 ^ (n - 1).log2 := Nat.pow_le_pow_right (by omega) (by omega)
      omega
    have hKle : n ≤ 2 ^ ((n - 1).log2 + 1) := by
      have := Nat.lt_log2_self (n := n - 1)
      omega
    have hKmin : ∀ j, n ≤ 2 ^ j → (n - 1).log2 + 1 ≤ j := by
      intro j hj
      have hle : 2 ^ (n - 1).log2 ≤ n - 1 := Nat.log2_self_le (by omega)
      have hlt : 2 ^ (n - 1).log2 < 2 ^ j := by omega
      have := (Nat.pow_lt_pow_iff_right (by omega : 1 < 2)).mp hlt
      omega
    have hred : class_for_size n =
        (if (if (n - 1).log2 + 1 < SLAB_MIN_SHIFT then SLAB_MIN_SHIFT else (n - 1).log2 + 1) >
            SLAB_MAX_SHIFT then VALUE_CLASS_BUMP
         else (if (n - 1).log2 + 1 < SLAB_MIN_SHIFT then SLAB_MIN_SHIFT else (n - 1).log2 + 1)) := by
      simp only [class_for_size]
      rw [if_neg (by omega : ¬ n = 0), Nat.mod_eq_of_lt (by omega : n < 2 ^ 32), hK,
          shift_loop_go ((n - 1).log2 + 1) 33 0 (by omega) (by omega)]
    rw [hred]
    by_cases hbig : (n - 1).log2 + 1 > SLAB_MAX_SHIFT
    · have h1 : ¬ (n - 1).log2 + 1 < SLAB_MIN_SHIFT := by
        simp only [SLAB_MIN_SHIFT, SLAB_MAX_SHIFT] at *
        omega
      rw [if_neg h1, if_pos hbig]
      have hgt : 2 ^ SLAB_MAX_SHIFT < n := by
        by_contra hc
        push_neg at hc
        have := hKmin SLAB_MAX_SHIFT hc
        omega
      exact ⟨⟨fun _ => hgt, fun _ => rfl⟩, Or.inl hgt⟩
    · push_neg at hbig
      have hc12 : (if (n - 1).log2 + 1 < SLAB_MIN_SHIFT then SLAB_MIN_SHIFT
          else (n - 1).log2 + 1) ≤ SLAB_MAX_SHIFT := by
        split
        · simp only [SLAB_MIN_SHIFT, SLAB_MAX_SHIFT]; omega
        · exact hbig
      rw [if_neg (by omega : ¬ (if (n - 1).log2 + 1 < SLAB_MIN_SHIFT then SLAB_MIN_SHIFT
          else (n - 1).log2 + 1) > SLAB_MAX_SHIFT)]
      have hnle : n ≤ 2 ^ SLAB_MAX_SHIFT := by
        calc n ≤ 2 ^ ((n - 1).log2 + 1) := hKle
        _ ≤ 2 ^ SLAB_MAX_SHIFT := Nat.pow_le_pow_right (by omega) hbig
      constructor
      · constructor
        · intro h
          exfalso
          revert h
          split
          · intro h; exact absurd h (by decide)
          · intro h
            simp only [VALUE_CLASS_BUMP] at h
            simp only [SLAB_MAX_SHIFT] at hbig
            omega
        · intro h; omega
      · refine Or.inr ⟨?_, hc12, ?_, ?_⟩
        · split
          · exact Nat.le_refl _
          · simp only [SLAB_MIN_SHIFT] at *; omega
        · split
          · calc n ≤ 2 ^ ((n - 1).log2 + 1) := hKle
            _ ≤ 2 ^ SLAB_MIN_SHIFT := Nat.pow_le_pow_right (by omega) (by omega)
          · exact hKle
        · intro j hj hnj
          have := hKmin j hnj
          split
          · exact hj
          · exact this

/-- C8 (amended): below the uint32 wrap bound, class_for_size picks the
smallest shift of at least SLAB_MIN_SHIFT whose block covers the request,
escaping to VALUE_CLASS_BUMP exactly when that shift would exceed
SLAB_MAX_SHIFT; freeing a BUMP-class value is a no-op and freeing an
in-range class pushes one block onto that class's free list. -/
theorem class_for_size_characterisation :
    (∀ n : Nat, n ≤ 2 ^ 31 →
      (class_for_size n = VALUE_CLASS_BUMP ↔ 2 ^ SLAB_MAX_SHIFT < n) ∧
      (2 ^ SLAB_MAX_SHIFT < n ∨
        (SLAB_MIN_SHIFT ≤ class_for_size n ∧ class_for_size n ≤ SLAB_MAX_SHIFT ∧
         n ≤ 2 ^ class_for_size n ∧
         ∀ j, SLAB_MIN_SHIFT ≤ j → n ≤ 2 ^ j → class_for_size n ≤ j))) ∧
    (∀ s : Shard, value_free s VALUE_CLASS_BUMP = s) ∧
    (∀ (s : Shard) (c : Nat), c ≠ VALUE_CLASS_BUMP →
      value_free s c =
        { s with freelist := s.freelist.set c (s.freelist.getD c 0 + 1) }) := by
  refine ⟨class_for_size_spec, ?_, ?_⟩
  · intro s
    rw [value_free, if_pos rfl]
  · intro s c hc
    rw [value_free, if_neg hc]
    rfl

theorem class_for_size_characterisation_witness :
    (100 ≤ 2 ^ 31 ∧ SLAB_MIN_SHIFT ≤ 7 ∧ 100 ≤ 2 ^ 7 ∧ 5000 ≤ 2 ^ 31 ∧
       2 ^ SLAB_MAX_SHIFT < 5000 ∧ (6 : Nat) ≠ VALUE_CLASS_BUMP) ∧
    100 ≤ 2 ^ class_for_size 100 ∧ class_for_size 100 ≤ 7 ∧
    class_for_size 5000 = VALUE_CLASS_BUMP ∧
    value_free oom_quiet_state VALUE_CLASS_BUMP = oom_quiet_state ∧
    value_free oom_quiet_state 6 =
      { oom_quiet_state with
          freelist := oom_quiet_state.freelist.set 6 (oom_quiet_state.freelist.getD 6 0 + 1) } := by
  obtain ⟨h1, h2, h3⟩ := class_for_size_characterisation
  refine ⟨⟨by decide, by decide, by decide, by decide, by decide, by decide⟩, ?_, ?_, ?_,
          h2 oom_quiet_state, h3 oom_quiet_state 6 (by decide)⟩
  · rcases (h1 100 (by decide)).2 with habs | ⟨_, _, hle, _⟩
    · exact absurd habs (by decide)
    · exact hle
  · rcases (h1 100 (by decide)).2 with habs | ⟨_, _, _, hmin⟩
    · exact absurd habs (by decide)
    · exact hmin 7 (by decide) (by decide)
  · exact (h1 5000 (by decide)).1.mpr (by decide)

theorem getD_set_self_c4 {α : Type} (l : List α) (i : Nat) (v d : α) (h : i < l.length) :
    (l.set i v).getD i d = v := by
  simp [List.getD_eq_getElem?_getD, List.getElem?_set_self h]

theorem getD_set_ne_c4 {α : Type} (l : List α) (i j : Nat) (v d : α) (h : i ≠ j) :
    (l.set i v).getD j d = l.getD j d := by
  simp [List.getD_eq_getElem?_getD, List.getElem?_set_ne h]

/-- The migration-insert probe stops only on a non-live slot. -/
theorem table_insert_go_nonlive (tab : List Slot) (cap : Nat) :
    ∀ fuel idx i, table_insert_go tab cap idx fuel = some i →
      tab.getD i Slot.empty = Slot.empty ∨ tab.getD i Slot.empty = Slot.tomb := by
  intro fuel
  induction fuel with
  | zero => intro idx i h; exact Option.noConfusion h
  | succ f ih =>
    intro idx i h
    rw [table_insert_go] at h
    cases hsl : tab.getD idx Slot.empty with
    | live e =>
      simp only [hsl] at h
      exact ih _ i h
    | empty =>
      simp only [hsl] at h
      cases Option.some.inj h
      exact Or.inl hsl
    | tomb =>
      simp only [hsl] at h
      cases Option.some.inj h
      exact Or.inr hsl

/-- A successful migration insert rewrites exactly one previously non-live
slot of the incoming table with the migrated entry. -/
theorem table_insert_shape (nt : List Slot) (cap : Nat) (entries : List Entry)
    (e used : Nat) (nt' : List Slot) (used' : Nat)
    (h : table_insert nt cap entries e used = some (nt', used')) :
    ∃ idx, nt' = nt.set idx (Slot.live e) ∧
      (nt.getD idx Slot.empty = Slot.empty ∨ nt.getD idx Slot.empty = Slot.tomb) := by
  unfold table_insert at h
  cases hgo : table_insert_go nt cap (idx_for (fnv1a64 (entries.getD e default).key) cap) cap with
  | none => rw [hgo] at h; exact Option.noConfusion h
  | some idx =>
    simp only [hgo] at h
    obtain ⟨h1, -⟩ := Prod.mk.inj (Option.some.inj h)
    exact ⟨idx, h1.symm, table_insert_go_nonlive nt cap cap _ idx hgo⟩

theorem migrated_count_nil (tab : List Slot) (entries : List Entry) (now a : Nat) :
    migrated_count tab entries now a a = 0 := by
  unfold migrated_count
  rw [Nat.sub_self]
  rfl

theorem migrated_count_step (tab : List Slot) (entries : List Entry) (now a b : Nat)
    (h : a < b) :
    migrated_count tab entries now a b =
      migrated_count tab entries now (a + 1) b +
        (if eligible entries now (tab.getD a Slot.empty) = true then 1 else 0) := by
  unfold migrated_count
  rw [show b - a = (b - (a + 1)) + 1 by omega, List.range'_succ, List.countP_cons]

/-- The batch loop of shard_migrate_batch: the cursor only advances and stays
inside the current table; the number of entries migrated is exactly the
number of eligible (live, undeleted, unexpired) slots it swept, capped at
MIGRATE_BATCH; it stops only at the end of the table or on a full batch; and
the incoming table changes only by writing eligible swept entries over
non-live slots. -/
theorem migrate_go_spec (old : List Slot) (entries : List Entry) (now new_cap cap : Nat) :
    ∀ fuel pos migrated nt nused pos' nt' nused',
      pos ≤ cap →
      migrated ≤ MIGRATE_BATCH →
      migrate_go old entries now new_cap cap pos migrated nt nused fuel = some (pos', nt', nused') →
      pos ≤ pos' ∧ pos' ≤ cap ∧
      migrated + migrated_count old entries now pos pos' ≤ MIGRATE_BATCH ∧
      (pos' = cap ∨ migrated + migrated_count old entries now pos pos' = MIGRATE_BATCH) ∧
      nt'.length = nt.length ∧
      (∀ j, nt'.getD j Slot.empty = nt.getD j Slot.empty ∨
        ((nt.getD j Slot.empty = Slot.empty ∨ nt.getD j Slot.empty = Slot.tomb) ∧
         ∃ i, pos ≤ i ∧ i < pos' ∧
           old.getD i Slot.empty = nt'.getD j Slot.empty ∧
           eligible entries now (old.getD i Slot.empty) = true)) := by
  intro fuel
  induction fuel with
  | zero =>
    intro pos migrated nt nused pos' nt' nused' hpos hmig h
    rw [migrate_go] at h
    by_cases hc : pos < cap ∧ migrated < MIGRATE_BATCH
    · rw [if_pos hc] at h; exact Option.noConfusion h
    · rw [if_neg hc] at h
      obtain ⟨hp, hrest⟩ := Prod.mk.inj (Option.some.inj h)
      obtain ⟨hn, hu⟩ := Prod.mk.inj hrest
      subst hp; subst hn
      rw [migrated_count_nil]
      refine ⟨Nat.le_refl _, hpos, by omega, by omega, rfl, fun j => Or.inl rfl⟩
  | succ f ih =>
    intro pos migrated nt nused pos' nt' nused' hpos hmig h
    rw [migrate_go] at h
    by_cases hc : pos < cap ∧ migrated < MIGRATE_BATCH
    · rw [if_pos hc] at h
      cases hsl : old.getD pos Slot.empty with
      | empty =>
        simp only [hsl] at h
        obtain ⟨i1, i2, i3, i4, i5, i6⟩ :=
          ih (pos + 1) migrated nt nused pos' nt' nused' (by omega) hmig h
        have hel : eligible entries now (old.getD pos Slot.empty) = false := by
          rw [hsl]; rfl
        have hmc : migrated_count old entries now pos pos' =
            migrated_count old entries now (pos + 1) pos' := by
          rw [migrated_count_step old entries now pos pos' (by omega), hel,
              if_neg Bool.false_ne_true, Nat.add_zero]
        rw [hmc]
        refine ⟨by omega, i2, i3, i4, i5, fun j => ?_⟩
        rcases i6 j with hL | ⟨hpre, i, hi1, hi2, hi3, hi4⟩
        · exact Or.inl hL
        · exact Or.inr ⟨hpre, i, by omega, hi2, hi3, hi4⟩
      | tomb =>
        simp only [hsl] at h
        obtain ⟨i1, i2, i3, i4, i5, i6⟩ :=
          ih (pos + 1) migrated nt nused pos' nt' nused' (by omega) hmig h
        have hel : eligible entries now (old.getD pos Slot.empty) = false := by
          rw [hsl]; rfl
        have hmc : migrated_count old entries now pos pos' =
            migrated_count old entries now (pos + 1) pos' := by
          rw [migrated_count_step old entries now pos pos' (by omega), hel,
              if_neg Bool.false_ne_true, Nat.add_zero]
        rw [hmc]
        refine ⟨by omega, i2, i3, i4, i5, fun j => ?_⟩
        rcases i6 j with hL | ⟨hpre, i, hi1, hi2, hi3, hi4⟩
        · exact Or.inl hL
        · exact Or.inr ⟨hpre, i, by omega, hi2, hi3, hi4⟩
      | live e =>
        simp only [hsl] at h
        by_cases hbad : ((entries.getD e default).deleted
            || is_expired (entries.getD e default) now) = true
        · rw [if_pos hbad] at h
          obtain ⟨i1, i2, i3, i4, i5, i6⟩ :=
            ih (pos + 1) migrated nt nused pos' nt' nused' (by omega) hmig h
          have hel : eligible entries now (old.getD pos Slot.empty) = false := by
            rw [hsl]
            simp only [eligible]
            rw [← Bool.not_or, hbad]
            rfl
          have hmc : migrated_count old entries now pos pos' =
              migrated_count old entries now (pos + 1) pos' := by
            rw [migrated_count_step old entries now pos pos' (by omega), hel,
                if_neg Bool.false_ne_true, Nat.add_zero]
          rw [hmc]
          refine ⟨by omega, i2, i3, i4, i5, fun j => ?_⟩
          rcases i6 j with hL | ⟨hpre, i, hi1, hi2, hi3, hi4⟩
          · exact Or.inl hL
          · exact Or.inr ⟨hpre, i, by omega, hi2, hi3, hi4⟩
        · rw [if_neg hbad] at h
          cases hti : table_insert nt new_cap entries e nused with
          | none => simp only [hti] at h; exact Option.noConfusion h
          | some p =>
            obtain ⟨nt1, nused1⟩ := p
            simp only [hti] at h
            obtain ⟨i1, i2, i3, i4, i5, i6⟩ :=
              ih (pos + 1) (migrated + 1) nt1 nused1 pos' nt' nused' (by omega) (by omega) h
            obtain ⟨idx, hnt1, hidx⟩ := table_insert_shape nt new_cap entries e nused nt1 nused1 hti
            have hel : eligible entries now (old.getD pos Slot.empty) = true := by
              rw [hsl]
              simp only [eligible]
              rw [← Bool.not_or, Bool.eq_false_iff.mpr hbad]
              rfl
            have hmc : migrated_count old entries now pos pos' =
                migrated_count old entries now (pos + 1) pos' + 1 := by
              rw [migrated_count_step old entries now pos pos' (by omega), hel, if_pos rfl]
            have hlen1 : nt1.length = nt.length := by
              rw [hnt1, List.length_set]
            refine ⟨by omega, i2, by omega, ?_, by omega, fun j => ?_⟩
            · rcases i4 with h4 | h4
              · exact Or.inl h4
              · right; omega
            · rcases i6 j with hL | ⟨hpre, i, hi1, hi2, hi3, hi4⟩
              · by_cases hjlen : idx < nt.length
                · by_cases hji : j = idx
                  · subst hji
                    right
                    refine ⟨hidx, pos, Nat.le_refl pos, by omega, ?_, hel⟩
                    rw [hsl, hL, hnt1, getD_set_self_c4 nt j (Slot.live e) Slot.empty hjlen]
                  · left
                    rw [hL, hnt1, getD_set_ne_c4 nt idx j _ _ (fun hh => hji hh.symm)]
                · left
                  rw [hL, hnt1, List.set_eq_of_length_le (by omega)]
              · right
                have hntj : nt.getD j Slot.empty = Slot.empty ∨ nt.getD j Slot.empty = Slot.tomb := by
                  by_cases hjlen : idx < nt.length
                  · by_cases hji : j = idx
                    · subst hji
                      rw [hnt1, getD_set_self_c4 nt j _ _ hjlen] at hpre
                      rcases hpre with hh | hh <;> exact absurd hh (by simp)
                    · rwa [hnt1, getD_set_ne_c4 nt idx j _ _ (fun hh => hji hh.symm)] at hpre
                  · rwa [hnt1, List.set_eq_of_length_le (by omega)] at hpre
                exact ⟨hntj, i, by omega, hi2, hi3, hi4⟩
    · rw [if_neg hc] at h
      obtain ⟨hp, hrest⟩ := Prod.mk.inj (Option.some.inj h)
      obtain ⟨hn, hu⟩ := Prod.mk.inj hrest
      subst hp; subst hn
      rw [migrated_count_nil]
      refine ⟨Nat.le_refl _, hpos, by omega, by omega, rfl, fun j => Or.inl rfl⟩

/-- C4: growth starts exactly when an insert would push occupancy past
capacity * 7 / 10; the incoming table is fresh and empty at twice the
capacity (at least the configured initial capacity); while a resize is in
progress every operation's leading batch advances the cursor, migrates at
most MIGRATE_BATCH eligible (live, undeleted, unexpired) entries — exactly
the eligible slots it sweeps, skipping empty, tombstone, deleted and
expired slots — stopping only at the table end or on a full batch; and
reaching the end promotes the incoming table and recounts the live
entries by scanning it. -/
theorem grow_and_migrate_discipline :
    (∀ (icap : Nat) (s : Shard) (now : Nat), s.new_tab = none →
       s.used + 1 ≤ s.cap * 7 / 10 → shard_maybe_grow icap s now = some s) ∧
    (∀ (icap : Nat) (s : Shard) (now : Nat), s.new_tab = none →
       s.used + 1 > s.cap * 7 / 10 →
       (shard_start_resize icap s).new_cap = max (s.cap * 2) icap ∧
       (shard_start_resize icap s).new_tab =
         some (List.replicate (max (s.cap * 2) icap) Slot.empty) ∧
       (shard_start_resize icap s).migrate_pos = 0 ∧
       (shard_start_resize icap s).new_used = 0 ∧
       shard_maybe_grow icap s now =
         shard_migrate_batch (shard_start_resize icap s) now) ∧
    (∀ (icap : Nat) (s : Shard) (now : Nat) (nt : List Slot), s.new_tab = some nt →
       shard_maybe_grow icap s now = shard_migrate_batch s now) ∧
    (∀ (s : Shard) (now : Nat) (nt : List Slot) (s' : Shard),
       s.new_tab = some nt → s.migrate_pos ≤ s.cap →
       shard_migrate_batch s now = some s' →
       ∃ pos' nt' nused',
         migrate_go s.tab s.entries now s.new_cap s.cap s.migrate_pos 0 nt s.new_used s.cap
           = some (pos', nt', nused') ∧
         s.migrate_pos ≤ pos' ∧ pos' ≤ s.cap ∧
         migrated_count s.tab s.entries now s.migrate_pos pos' ≤ MIGRATE_BATCH ∧
         (pos' = s.cap ∨
          migrated_count s.tab s.entries now s.migrate_pos pos' = MIGRATE_BATCH) ∧
         nt'.length = nt.length ∧
         (∀ j, nt'.getD j Slot.empty = nt.getD j Slot.empty ∨
            ((nt.getD j Slot.empty = Slot.empty ∨ nt.getD j Slot.empty = Slot.tomb) ∧
             ∃ i, s.migrate_pos ≤ i ∧ i < pos' ∧
               s.tab.getD i Slot.empty = nt'.getD j Slot.empty ∧
               eligible s.entries now (s.tab.getD i Slot.empty) = true)) ∧
         (if pos' ≥ s.cap then
            s' = { s with
                     tab := nt', cap := s.new_cap, used := nused',
                     new_tab := none, new_cap := 0, new_used := 0, migrate_pos := 0,
                     count := count_live nt' s.entries }
          else
            s' = { s with
                     new_tab := some nt', new_used := nused',
                     migrate_pos := pos' })) := by
  refine ⟨?_, ?_, ?_, ?_⟩
  · intro icap s now hnt htrig
    simp only [shard_maybe_grow, hnt]
    rw [if_neg (by omega)]
  · intro icap s now hnt htrig
    have hsr : shard_start_resize icap s =
        { s with new_tab := some (List.replicate (max (s.cap * 2) icap) Slot.empty),
                 new_cap := max (s.cap * 2) icap, new_used := 0, migrate_pos := 0 } := by
      simp only [shard_start_resize, hnt]
      rcases Nat.lt_or_ge (s.cap * 2) icap with hlt | hge
      · rw [if_pos hlt, Nat.max_eq_right (Nat.le_of_lt hlt)]
      · rw [if_neg (by omega), Nat.max_eq_left hge]
    refine ⟨by rw [hsr], by rw [hsr], by rw [hsr], by rw [hsr], ?_⟩
    simp only [shard_maybe_grow, hnt]
    rw [if_pos htrig]
  · intro icap s now nt hnt
    simp only [shard_maybe_grow, hnt]
  · intro s now nt s' hnt hpos hb
    simp only [shard_migrate_batch, hnt] at hb
    cases hmg : migrate_go s.tab s.entries now s.new_cap s.cap s.migrate_pos 0 nt s.new_used s.cap with
    | none => simp only [hmg] at hb; exact Option.noConfusion hb
    | some res =>
      obtain ⟨pos', nt', nused'⟩ := res
      simp only [hmg] at hb
      obtain ⟨i1, i2, i3, i4, i5, i6⟩ :=
        migrate_go_spec s.tab s.entries now s.new_cap s.cap s.cap s.migrate_pos 0 nt s.new_used
          pos' nt' nused' hpos (Nat.zero_le _) hmg
      refine ⟨pos', nt', nused', rfl, i1, i2, by omega, ?_, i5, i6, ?_⟩
      · rcases i4 with h4 | h4
        · exact Or.inl h4
        · right; omega
      · by_cases hge : pos' ≥ s.cap
        · rw [if_pos hge] at hb ⊢
          exact (Option.some.inj hb).symm
        · rw [if_neg hge] at hb ⊢
          exact (Option.some.inj hb).symm

theorem grow_and_migrate_discipline_witness :
    (oom_quiet_state.new_tab = none ∧ oom_quiet_state.used + 1 ≤ oom_quiet_state.cap * 7 / 10 ∧
     c4_trigger.new_tab = none ∧ c4_trigger.used + 1 > c4_trigger.cap * 7 / 10 ∧
     c4_resizing.new_tab = some (List.replicate 8 Slot.empty) ∧
     c4_resizing.migrate_pos ≤ c4_resizing.cap ∧
     shard_migrate_batch c4_resizing 100 = some c4_mig_final) ∧
    shard_maybe_grow 16 oom_quiet_state 0 = some oom_quiet_state ∧
    (shard_start_resize 16 c4_trigger).new_cap = max (c4_trigger.cap * 2) 16 ∧
    shard_maybe_grow 16 c4_trigger 0 =
      shard_migrate_batch (shard_start_resize 16 c4_trigger) 0 ∧
    shard_maybe_grow 16 c4_resizing 100 = shard_migrate_batch c4_resizing 100 ∧
    (∃ pos' nt' nused',
       migrate_go c4_resizing.tab c4_resizing.entries 100 c4_resizing.new_cap c4_resizing.cap
           c4_resizing.migrate_pos 0 (List.replicate 8 Slot.empty) c4_resizing.new_used
           c4_resizing.cap
         = some (pos', nt', nused') ∧
       c4_resizing.migrate_pos ≤ pos' ∧ pos' ≤ c4_resizing.cap ∧
       migrated_count c4_resizing.tab c4_resizing.entries 100 c4_resizing.migrate_pos pos'
         ≤ MIGRATE_BATCH ∧
       (pos' = c4_resizing.cap ∨
        migrated_count c4_resizing.tab c4_resizing.entries 100 c4_resizing.migrate_pos pos'
          = MIGRATE_BATCH) ∧
       nt'.length = (List.replicate 8 Slot.empty : List Slot).length ∧
       (∀ j, nt'.getD j Slot.empty = (List.replicate 8 Slot.empty : List Slot).getD j Slot.empty ∨
          (((List.replicate 8 Slot.empty : List Slot).getD j Slot.empty = Slot.empty ∨
            (List.replicate 8 Slot.empty : List Slot).getD j Slot.empty = Slot.tomb) ∧
           ∃ i, c4_resizing.migrate_pos ≤ i ∧ i < pos' ∧
             c4_resizing.tab.getD i Slot.empty = nt'.getD j Slot.empty ∧
             eligible c4_resizing.entries 100 (c4_resizing.tab.getD i Slot.empty) = true)) ∧
       (if pos' ≥ c4_resizing.cap then
          c4_mig_final = { c4_resizing with
            tab := nt', cap := c4_resizing.new_cap, used := nused',
            new_tab := none, new_cap := 0, new_used := 0, migrate_pos := 0,
            count := count_live nt' c4_resizing.entries }
        else
          c4_mig_final = { c4_resizing with
            new_tab := some nt', new_used := nused', migrate_pos := pos' })) := by
  obtain ⟨h1, h2, h3, h4⟩ := grow_and_migrate_discipline
  refine ⟨⟨rfl, by decide, rfl, by decide, rfl, by decide, rfl⟩, ?_, ?_, ?_, ?_, ?_⟩
  · exact h1 16 oom_quiet_state 0 rfl (by decide)
  · exact (h2 16 c4_trigger 0 rfl (by decide)).1
  · exact (h2 16 c4_trigger 0 rfl (by decide)).2.2.2.2
  · exact h3 16 c4_resizing 100 (List.replicate 8 Slot.empty) rfl
  · exact h4 c4_resizing 100 (List.replicate 8 Slot.empty) c4_mig_final rfl (by decide) rfl

/-- A successful parse_set_cmd pins the command token to "set". -/
theorem parse_set_cmd_is_set (line : List Nat) (q : List Nat × Int × Int × Int)
    (h : parse_set_cmd line = some q) : (parse_token line 16).1 = ascii "set" := by
  by_cases hc : (parse_token line 16).1 = ascii "set"
  · exact hc
  · unfold parse_set_cmd at h
    rw [if_neg hc] at h
    exact Option.noConfusion h

/-- C9 (amended): a set line whose bytes field parses but exceeds
MAX_SET_BYTES draws `CLIENT_ERROR bad data chunk` immediately: no
pending-set state is installed, no data-block byte is consumed, the
connection stays open, and the remaining input is dispatched exactly as
if it had arrived on its own. -/
theorem set_oversized_bytes_rejected_before_data :
    ∀ (E : Type) (B : Backend E) (e : E) (fuel : Nat) (line rest key : List Nat)
      (flags exptime bytes : Int),
      line.length ≤ MAX_LINE →
      find_crlf (line ++ 13 :: 10 :: rest) = some line.length →
      parse_set_cmd line = some (key, flags, exptime, bytes) →
      (MAX_SET_BYTES : Int) < bytes →
      parse_and_dispatch E B (fuel + 1) (line ++ 13 :: 10 :: rest) none e
        = (parse_and_dispatch E B fuel rest none e).map
            (fun q => (ascii "CLIENT_ERROR bad data chunk\r\n" ++ q.1, q.2)) := by
  intro E B e fuel line rest key flags exptime bytes hlen hcr hparse hbig
  have htake : (line ++ 13 :: 10 :: rest).take line.length = line := List.take_left line _
  have hdrop : (line ++ 13 :: 10 :: rest).drop (line.length + 2) = rest := by
    have hsplit : line ++ 13 :: 10 :: rest = (line ++ [13, 10]) ++ rest := by simp
    rw [hsplit, show line.length + 2 = (line ++ [13, 10]).length by simp, List.drop_left]
  have hset : (parse_token line 16).1 = ascii "set" :=
    parse_set_cmd_is_set line (key, flags, exptime, bytes) hparse
  simp only [parse_and_dispatch, hcr]
  rw [if_neg (by omega : ¬ line.length > MAX_LINE)]
  simp only [htake, hdrop, hset, if_pos, hparse]
  rw [if_pos (Or.inr hbig)]

/-- C9 counterexample: `set k 0 0 -1` has its bytes field outside
0..MAX_SET_BYTES, yet the daemon answers `CLIENT_ERROR bad command line
format`, not the claimed `CLIENT_ERROR bad data chunk` (parse_set_cmd
rejects the negative value before the range check runs). -/
theorem negative_bytes_not_bad_data_chunk :
    parse_and_dispatch Unit trivialBackend 2 (ascii "set k 0 0 -1\r\n") none ()
      = some (ascii "CLIENT_ERROR bad command line format\r\n", [], none, (), false) ∧
    ((-1 : Int) < 0 ∨ (MAX_SET_BYTES : Int) < -1) ∧
    ascii "CLIENT_ERROR bad command line format\r\n"
      ≠ ascii "CLIENT_ERROR bad data chunk\r\n" := by
  refine ⟨rfl, Or.inl (by decide), by decide⟩

theorem set_oversized_bytes_rejected_before_data_witness :
    ((ascii "set big 0 0 99999999").length ≤ MAX_LINE ∧
     find_crlf (ascii "set big 0 0 99999999" ++ 13 :: 10 :: ascii "get big\r\n")
       = some (ascii "set big 0 0 99999999").length ∧
     parse_set_cmd (ascii "set big 0 0 99999999")
       = some (ascii "big", 0, 0, 99999999) ∧
     (MAX_SET_BYTES : Int) < 99999999) ∧
    parse_and_dispatch Unit trivialBackend 3
        (ascii "set big 0 0 99999999" ++ 13 :: 10 :: ascii "get big\r\n") none ()
      = (parse_and_dispatch Unit trivialBackend 2 (ascii "get big\r\n") none ()).map
          (fun q => (ascii "CLIENT_ERROR bad data chunk\r\n" ++ q.1, q.2)) ∧
    parse_and_dispatch Unit trivialBackend 3
        (ascii "set big 0 0 99999999" ++ 13 :: 10 :: ascii "get big\r\n") none ()
      = some (ascii "CLIENT_ERROR bad data chunk\r\n" ++ ascii "END\r\n",
              [], none, (), false) := by
  refine ⟨⟨by decide, rfl, rfl, by decide⟩, ?_, rfl⟩
  exact set_oversized_bytes_rejected_before_data Unit trivialBackend () 2
    (ascii "set big 0 0 99999999") (ascii "get big\r\n") (ascii "big") 0 0 99999999
    (by decide) rfl rfl (by decide)

/-- C5: the spec says an expired key behaves like an absent key for both
get and delete — neither operation may report success for it. In
hinotetsu2.c, the engine the libuv daemon links, delete_internal has no
expiry check: on `h2_expired_state` (key [3], expired at 5, now = 100)
get answers NotFound, but delete frees the entry and returns HINOTETSU_OK
— the daemon replies DELETED for an expired key, where the claim requires
NotFound. -/
theorem expired_delete_reports_success :
    is_expired (h2_expired_state.entries.getD 0 default) 100 = true ∧
    (h2_get_into_internal h2_expired_state [3] 8 100).map Prod.fst
      = some GetRes.notfound ∧
    (h2_delete_internal h2_expired_state [3]).map Prod.fst = some HINOTETSU_OK ∧
    HINOTETSU_OK ≠ HINOTETSU_ERR_NOTFOUND :=
  ⟨rfl, rfl, rfl, by decide⟩
